import Mathlib

/-!
Verification of the WSB page-builder component mutation engine.

This file gives a shallow embedding of the component data model and the
create / edit / remove / reorder / batch-mutate operations of the
`react_agent` package (files `tools.py`, `tools_v2.py`, `utils.py`,
`builder.py`), and proves or refutes the specification's claims about them.

Modelling conventions:
- A component is modelled by the projection of the JSON record onto the
  fields the claims are about (`id`, `kind`, `relIn`, `relTo`, the absolute
  geometry fields, `orderIndex` and `content`); the wide open set of
  presentation fields does not influence any of the claimed behaviours.
- Documents are flat lists of components (the data model of the newer
  schema; new creates never populate nested legacy `items` arrays).
  Values are immutable Lean data; Python's in-place dict mutation is
  rendered as functional update.
- Machine integers are `Int` (CPython ints are unbounded, so no modular
  wrap is needed), strings are `String`.
- Fallible code paths (`raise ValueError`) are rendered with `Except`.
- `generate_id()` (UUID generation) is out of scope per the spec; the
  operations take the would-be fresh id as an explicit argument.
-/

namespace WSB

/-- The fixed header anchor id (constants.py / tools.py / tools_v2.py,
`DEFAULT_HEADER_ID`). -/
def DEFAULT_HEADER_ID : String := "22FC8C5B-CD71-42B7-9DF2-486F577581A9"

/-- The `relIn` structure: parent reference plus edge offsets.  The raw
kwargs dict may lack the `id` key, hence `Option String`; the pydantic
schema (`signatures.RelIn`) requires `id` at validation time. -/
structure RelIn where
  id : Option String
  left : Option Int
  top : Option Int
  right : Option Int
  bottom : Option Int
deriving Repr, DecidableEq

/-- The `relTo` structure: sibling reference plus vertical gap. -/
structure RelTo where
  id : Option String
  below : Option Int
deriving Repr, DecidableEq

/-- A component record, projected onto the fields the claims concern. -/
structure Comp where
  id : String
  kind : String
  relIn : Option RelIn
  relTo : Option RelTo
  left : Option Int
  top : Option Int
  right : Option Int
  bottom : Option Int
  width : Option Int
  height : Option Int
  orderIndex : Option Int
  content : Option String
deriving Repr, DecidableEq

/-- A page document: the flat ordered `items` list. -/
abbrev Doc := List Comp

/-- utils.get_rel_parent_id: the parent id from `relIn`, if present. -/
def relParent (c : Comp) : Option String :=
  match c.relIn with
  | some r => r.id
  | none => none

/-- utils.find_component_by_id restricted to flat documents: first
component with the given id. -/
def findById (items : Doc) (cid : String) : Option Comp :=
  items.find? (fun c => c.id = cid)

/-- Helper for utils.renumber_components: walk the list once, giving each
component the number of previously seen components with the same
`relIn` parent.  This is exactly what bucketing the (flat) list by parent
id in encounter order and then enumerating each bucket produces. -/
def renumberFrom (cnt : Option String → Nat) : Doc → Doc
  | [] => []
  | c :: rest =>
      { c with orderIndex := some (Int.ofNat (cnt (relParent c))) } ::
        renumberFrom (fun p => if p = relParent c then cnt p + 1 else cnt p) rest

/-- utils.renumber_components on a flat document: recompute `orderIndex`
sequentially from 0 within every sibling group. -/
def renumber (items : Doc) : Doc := renumberFrom (fun _ => 0) items

/-- The order invariant: within every sibling group (components sharing
one `relIn` parent, with parentless components forming the top-level
group), the `orderIndex` values read 0, 1, ..., n-1 in list order. -/
def orderInvariant (items : Doc) : Prop :=
  ∀ p : Option String,
    ((items.filter (fun c => relParent c = p)).map (fun c => c.orderIndex)) =
      (List.range (items.filter (fun c => relParent c = p)).length).map
        (fun n => some (Int.ofNat n))

theorem relParent_set_orderIndex (c : Comp) (n : Option Int) :
    relParent { c with orderIndex := n } = relParent c := by
  simp [relParent]

theorem renumberFrom_filter (p : Option String) :
    ∀ (items : Doc) (cnt : Option String → Nat),
      (((renumberFrom cnt items).filter (fun c => relParent c = p)).map
          (fun c => c.orderIndex)) =
        (List.range' (cnt p)
            ((items.filter (fun c => relParent c = p)).length)).map
          (fun n => some (Int.ofNat n)) := by
  intro items
  induction items with
  | nil => intro cnt; simp [renumberFrom]
  | cons c rest ih =>
      intro cnt
      by_cases hc : relParent c = p
      · have hc2 := relParent_set_orderIndex c (some (Int.ofNat (cnt p)))
        simp only [renumberFrom, hc, List.filter_cons, hc2]
        rw [if_pos (by simp), if_pos (by simp)]
        rw [List.length_cons, List.range'_succ, List.map_cons, List.map_cons,
          List.cons.injEq]
        refine ⟨by simp, ?_⟩
        rw [ih]
        simp
      · have hc2 := relParent_set_orderIndex c (some (Int.ofNat (cnt (relParent c))))
        simp only [renumberFrom, List.filter_cons, hc2]
        rw [if_neg (by simpa using hc), if_neg (by simpa using hc)]
        rw [ih]
        have hne : ¬ p = relParent c := fun h => hc h.symm
        simp [hne]

/-- After renumbering, every sibling group's order indices are exactly
0, 1, ..., n-1 in list order. -/
theorem orderInvariant_renumber (items : Doc) : orderInvariant (renumber items) := by
  intro p
  have h := renumberFrom_filter p items (fun _ => 0)
  have hlen : (((renumber items).filter (fun c => relParent c = p)).length)
      = (items.filter (fun c => relParent c = p)).length := by
    have hmap := congrArg List.length h
    simpa [renumber] using hmap
  show (((renumber items).filter (fun c => relParent c = p)).map
      (fun c => c.orderIndex)) = _
  rw [show renumber items = renumberFrom (fun _ => 0) items from rfl] at *
  rw [h, hlen, List.range_eq_range']

/-- Python `str.strip()` on a character list: drop unicode whitespace from
both ends. -/
def pyStrip (l : List Char) : List Char :=
  ((l.dropWhile Char.isWhitespace).reverse.dropWhile Char.isWhitespace).reverse

/-- The CDATA opener, as characters. -/
def cdataOpen : List Char := "<![CDATA[".data

/-- The CDATA closer, as characters. -/
def cdataClose : List Char := "]]>".data

/-- The `_strip_cdata` helper of tools.create / utils.execute_create_operation /
tools_v2._execute_create: if the trimmed value starts with the CDATA opener
and ends with the closer, return the slice strictly between them, else the
value unchanged. -/
def stripCDATA (v : String) : String :=
  let t := pyStrip v.data
  if cdataOpen.isPrefixOf t ∧ cdataClose.isSuffixOf t then
    ⟨(t.drop cdataOpen.length).take ((t.drop cdataOpen.length).length - cdataClose.length)⟩
  else v

/-- utils.insert_component on the flat items list: with a `before_id` or
`after_id`, splice next to the first entry whose id matches either hint;
otherwise append at the end.  (`parent_id` only back-fills a missing
`relIn`; every caller in the repository passes `parent_id=None`.) -/
def insertLoop (c : Comp) (beforeId afterId : Option String) : Doc → Doc
  | [] => [c]
  | x :: rest =>
      if some x.id = beforeId then c :: x :: rest
      else if some x.id = afterId then x :: c :: rest
      else x :: insertLoop c beforeId afterId rest

/-- utils.insert_component (flat). -/
def insertComponent (c : Comp) (items : Doc) (parentId beforeId afterId : Option String) :
    Doc :=
  let c := match parentId, c.relIn with
    | some p, none => { c with relIn := some ⟨some p, none, none, none, none⟩ }
    | _, _ => c
  if beforeId.isSome ∨ afterId.isSome then insertLoop c beforeId afterId items
  else items ++ [c]

/-- constants.FAKE_ID_PATTERNS (also inlined in tools.create). -/
def FAKE_ID_PATTERNS : List String :=
  ["temp", "anchor", "placeholder", "dummy", "fake", "mock"]

/-- Python `str.lower()` (ASCII case mapping suffices for the ids involved). -/
def pyLower (s : String) : String := ⟨s.data.map Char.toLower⟩

/-- Does the second list start with the first one? -/
def leadsWith : List Char → List Char → Bool
  | [], _ => true
  | _ :: _, [] => false
  | a :: as, b :: bs => a = b && leadsWith as bs

/-- Python's substring containment test `needle in hay`. -/
def occursIn (needle : List Char) : List Char → Bool
  | [] => needle.isEmpty
  | b :: bs => leadsWith needle (b :: bs) || occursIn needle bs

/-- Does an id look like one of the placeholder patterns?  Models
`any(p in rel_to_id.lower() for p in fake_patterns)`. -/
def containsFake (t : String) : Bool :=
  FAKE_ID_PATTERNS.any (fun p => occursIn p.data (pyLower t).data)

/-- tools.create, lines 169-188: a SECTION whose caller-supplied `relTo.id`
looks like a placeholder is silently redirected to the header anchor,
keeping the caller's `below` (default 0). -/
def healSectionRelTo (rt : RelTo) : RelTo :=
  match rt.id with
  | some t =>
      if containsFake t ∧ t ≠ DEFAULT_HEADER_ID then
        ⟨some DEFAULT_HEADER_ID, some (rt.below.getD 0)⟩
      else rt
  | none => rt

/-- Sort key for picking the last section: `s.get("orderIndex", -1)`. -/
def oiKey (c : Comp) : Int := c.orderIndex.getD (-1)

/-- tools.create, lines 148-168: the auto-computed `relTo` for a SECTION
created with no explicit `relTo`.  `sorted(sections, key=orderIndex)[-1]`
is the last section attaining the maximal `orderIndex` (stable sort), which
the fold below computes directly. -/
def sectionAutoRelToV1 (items : Doc) (top : Option Int) : RelTo :=
  let sections := items.filter (fun c => c.kind = "SECTION")
  match sections with
  | [] => ⟨some DEFAULT_HEADER_ID, some 0⟩
  | s0 :: rest =>
      let last := rest.foldl (fun best s => if oiKey best ≤ oiKey s then s else best) s0
      let gap : Int :=
        match last.top, last.height, top with
        | some lt, some lh, some t => t - (lt + lh)
        | _, _, _ => 0
      ⟨some last.id, some gap⟩

/-- tools.create lines 202-247 = utils.execute_create_operation lines
530-575: starting from the caller's `relIn` (or an empty one), back-fill
the parent id and then each missing offset that is computable from the
supplied absolute geometry and the parent's geometry.  Caller-supplied
offsets are never overwritten. -/
def fillId (r : RelIn) (parent : Comp) : RelIn :=
  match r.id with
  | none => { r with id := some parent.id }
  | some _ => r

def fillLeft (r : RelIn) (left pleft : Option Int) : RelIn :=
  match r.left, left, pleft with
  | none, some lv, some plv => { r with left := some (lv - plv) }
  | _, _, _ => r

def fillTop (r : RelIn) (top ptop : Option Int) : RelIn :=
  match r.top, top, ptop with
  | none, some tv, some ptv => { r with top := some (tv - ptv) }
  | _, _, _ => r

def fillRight (r : RelIn) (width pwidth : Option Int) : RelIn :=
  match r.right, width, pwidth, r.left with
  | none, some wv, some pw, some rl => { r with right := some (-(pw - (rl + wv))) }
  | _, _, _, _ => r

def fillBottom (r : RelIn) (height pheight : Option Int) : RelIn :=
  match r.bottom, height, pheight, r.top with
  | none, some hv, some ph, some rt => { r with bottom := some (-(ph - (rt + hv))) }
  | _, _, _, _ => r

def fillRelInOffsets (relInKw : Option RelIn) (parent : Comp)
    (left top width height : Option Int) : RelIn :=
  fillBottom
    (fillRight
      (fillTop
        (fillLeft (fillId (relInKw.getD ⟨none, none, none, none, none⟩) parent)
          left parent.left)
        top parent.top)
      width parent.width)
    height parent.height

/-- The kwargs accepted by a create operation, projected onto the modelled
fields (signatures.CreateInput; the open presentation-field set is not
modelled).  `none` renders an absent key. -/
structure CreateKwargs where
  kind : String
  id : Option String
  parent_id : Option String
  before_id : Option String
  after_id : Option String
  relIn : Option RelIn
  relTo : Option RelTo
  left : Option Int
  top : Option Int
  right : Option Int
  bottom : Option Int
  width : Option Int
  height : Option Int
  content : Option String
deriving Repr, DecidableEq

/-- An all-absent kwargs record for a given kind, for building inputs. -/
def kwBase (kind : String) : CreateKwargs :=
  ⟨kind, none, none, none, none, none, none, none, none, none, none, none, none, none⟩

/-- The fragment of pydantic validation of `CreateInput` that the modelled
fields are subject to: a present `relIn` / `relTo` must carry an `id`
(signatures.RelIn / signatures.RelTo declare `id: str` as required; all
other modelled fields are optional and unconstrained). -/
def validCreateInput (kw : CreateKwargs) : Bool :=
  (match kw.relIn with
   | some r => r.id.isSome
   | none => true) &&
  (match kw.relTo with
   | some rt => rt.id.isSome
   | none => true)

/-- builder.build_component, projected onto the modelled fields: the
kind-specific defaults touch none of these fields, `orderIndex` is reset
to null (renumbering assigns it), and layout / relational / content fields
are copied from the validated payload. -/
def buildComponent (kw : CreateKwargs) (newId : String) : Comp :=
  { id := newId, kind := kw.kind, relIn := kw.relIn, relTo := kw.relTo,
    left := kw.left, top := kw.top, right := kw.right, bottom := kw.bottom,
    width := kw.width, height := kw.height, orderIndex := none,
    content := kw.content }

/-- tools.create, lines 249-260: a non-SECTION `relTo` naming a target that
is neither the header anchor nor an existing component is an error. -/
def relToCheckFails (items : Doc) (kind : String) (relTo : Option RelTo) : Bool :=
  match relTo with
  | some rt =>
      match rt.id with
      | some t =>
          if kind = "SECTION" ∨ t = DEFAULT_HEADER_ID then false
          else (findById items t).isNone
      | none => false
  | none => false

/-- tools.create from the `payload = CreateInput(**kwargs)` line on
(lines 262-293), shared verbatim by utils.execute_create_operation: the
pydantic validation, the `parent_id`/`before_id`/`after_id` fallbacks for
still-missing `relIn`/`relTo`, building, insertion and renumbering. -/
def createV1Rest (items : Doc) (kw : CreateKwargs) (freshId : String) :
    Except String (Doc × Comp) :=
  if relToCheckFails items kw.kind kw.relTo then
    .error "relTo references unknown id"
  else if ¬ validCreateInput kw then
    .error "CreateInput validation failed"
  else
    let kw := if kw.parent_id.isSome ∧ kw.relIn = none then
        { kw with relIn := some ⟨kw.parent_id, none, none, none, none⟩ }
      else kw
    let kw := if kw.relTo = none then
        match kw.after_id with
        | some a => { kw with relTo := some ⟨some a, some 0⟩ }
        | none =>
            match kw.before_id with
            | some b => { kw with relTo := some ⟨some b, some 0⟩ }
            | none => kw
      else kw
    let newId := kw.id.getD freshId
    let comp := buildComponent kw newId
    let items' := insertComponent comp items none kw.before_id kw.after_id
    .ok (renumber items', comp)

/-- tools.create (the v1 create tool; utils.execute_create_operation is the
same code without the load/save): CDATA-strip the content, default
`parent_id` from `relIn.id`, apply the SECTION special cases (strip `relIn`,
auto-chain or heal `relTo`), resolve the parent and fill `relIn` offsets,
check `relTo` references, then validate / build / insert / renumber. -/
def createV1 (items : Doc) (kw0 : CreateKwargs) (freshId : String) :
    Except String (Doc × Comp) :=
  let kw1 := { kw0 with content := kw0.content.map stripCDATA }
  let relInKw := kw1.relIn
  let kw2 := if kw1.parent_id = none ∧ (relInKw.bind (fun r => r.id)).isSome then
      { kw1 with parent_id := relInKw.bind (fun r => r.id) }
    else kw1
  let kw3 := if kw2.kind = "SECTION" then
      let kwS := { kw2 with relIn := none }
      match kwS.relTo with
      | none => { kwS with relTo := some (sectionAutoRelToV1 items kwS.top) }
      | some rt => { kwS with relTo := some (healSectionRelTo rt) }
    else kw2
  let parentId := match kw3.parent_id with
    | some p => some p
    | none => relInKw.bind (fun r => r.id)
  match parentId with
  | some p =>
      match findById items p with
      | none => .error "relIn/parent_id references unknown id"
      | some parent =>
          let ri := fillRelInOffsets relInKw parent kw3.left kw3.top kw3.width kw3.height
          createV1Rest items { kw3 with relIn := some ri } freshId
  | none => createV1Rest items kw3 freshId

/-- tools_v2._execute_create (without the `auto_position` branch, which no
claim concerns): a SECTION without a usable `relTo` id chains to the header
anchor; content is CDATA-stripped; the payload is validated, built,
inserted and the flat list renumbered.  Unlike the v1 create there is no
parent resolution, no `relIn` offset computation and no reference check. -/
def createV2 (items : Doc) (kw0 : CreateKwargs) (freshId : String) :
    Except String (Doc × Comp) :=
  let kw1 := if kw0.kind = "SECTION" then
      match kw0.relTo with
      | none => { kw0 with relTo := some ⟨some DEFAULT_HEADER_ID, some 0⟩ }
      | some rt =>
          if rt.id.isSome then kw0
          else { kw0 with relTo := some ⟨some DEFAULT_HEADER_ID, some 0⟩ }
    else kw0
  let kw2 := { kw1 with content := kw1.content.map stripCDATA }
  if ¬ validCreateInput kw2 then
    .error "CreateInput validation failed"
  else
    let newId := kw2.id.getD freshId
    let comp := buildComponent kw2 newId
    let items' := insertComponent comp items none kw2.before_id kw2.after_id
    .ok (renumber items', comp)

/-- tools.remove / tools_v2._execute_remove on a flat document: drop the
record whose id matches, renumber, and report whether anything matched.
Components that reference the removed id through `relIn` are NOT touched. -/
def removeTool (items : Doc) (cid : String) : Doc × Bool :=
  let pruned := items.filter (fun c => ¬ c.id = cid)
  (renumber pruned, items.any (fun c => c.id = cid))

/-- Zip the reordered sibling block back into the page: every position that
held a sibling receives the next entry of the reordered list, other
positions are unchanged (tools.reorder / tools_v2._execute_reorder).
An exhausted queue cannot occur when ids are unique; Python would raise
StopIteration there, the model keeps the original entry. -/
def spliceBack (sibIds : List String) : Doc → Doc → Doc
  | [], _ => []
  | c :: rest, queue =>
      if c.id ∈ sibIds then
        match queue with
        | q :: qs => q :: spliceBack sibIds rest qs
        | [] => c :: spliceBack sibIds rest []
      else c :: spliceBack sibIds rest queue

/-- tools.reorder / tools_v2._execute_reorder / utils.execute_reorder_operation
on a flat document: collect the sibling group of `parentArg`, rebuild it in
the order given by `orderIds` (ignoring unknown ids), append unmentioned
siblings in their previous relative order, splice the block back into the
page and renumber.  An empty sibling group leaves the document untouched
(the early `return []`). -/
def executeReorder (items : Doc) (parentArg : Option String) (orderIds : List String) :
    Doc :=
  let target := items.filter (fun c => relParent c = parentArg)
  if target.isEmpty then items
  else
    let newList := orderIds.foldl
      (fun acc i =>
        match target.reverse.find? (fun c => c.id = i) with
        | some it => acc ++ [it]
        | none => acc) []
    let newList := newList ++ target.filter (fun it => ¬ it ∈ newList)
    renumber (spliceBack (target.map (fun c => c.id)) items newList)

/-! ## utils.prune_by_ids: removal with transitive relIn descendants

The Python function builds a parent-to-children adjacency map from the
`relIn.id` values and then grows `ids_to_remove` by a recursive
depth-first walk guarded by a visited check.  The observable of that walk
is the set it computes: the targets together with every id reachable from
a target along child edges.  The model computes the same set by saturating
a one-step expansion (each round adds the children of everything collected
so far); the theorems below prove the saturation reaches exactly the set
of targets and transitive descendants, which is what the guarded
depth-first walk collects. -/

/-- One edge of the adjacency map: `q` is the id of a component whose
`relIn.id` is `p`. -/
def childEdge (items : Doc) (p q : String) : Prop :=
  ∃ c ∈ items, c.id = q ∧ relParent c = some p

/-- One saturation round: add the ids of all components whose `relIn`
parent is already collected. -/
def expandStep (items : Doc) (S : Finset String) : Finset String :=
  S ∪ ((items.filter (fun c =>
      match relParent c with
      | some p => p ∈ S
      | none => false)).map (fun c => c.id)).toFinset

/-- All ids that can enter the saturation: the targets and the item ids. -/
def pruneUniv (items : Doc) (targets : Finset String) : Finset String :=
  targets ∪ (items.map (fun c => c.id)).toFinset

/-- The set `ids_to_remove` of utils.prune_by_ids: targets plus transitive
relIn descendants, computed by saturation. -/
def idsToRemove (items : Doc) (targets : Finset String) : Finset String :=
  (expandStep items)^[(pruneUniv items targets).card + 1] targets

/-- The removal test of the pruning pass: an item goes away when its own id
was collected, or its direct `relIn` parent was. -/
def removePred (S : Finset String) (c : Comp) : Bool :=
  c.id ∈ S ||
    (match relParent c with
     | some p => p ∈ S
     | none => false)

/-- utils.prune_by_ids on a flat document: remove every item whose id (or
direct `relIn` parent) is in the collected set, and report whether
anything was removed. -/
def pruneByIds (items : Doc) (targets : Finset String) : Doc × Bool :=
  let S := idsToRemove items targets
  (items.filter (fun c => ¬ removePred S c = true), items.any (removePred S))

/-- utils.execute_remove_operation: the batch REMOVE is prune_by_ids on the
singleton target set. -/
def executeRemoveOperation (items : Doc) (cid : String) : Doc × Bool :=
  pruneByIds items {cid}

/-! ## tools_v2.mutate_components: the v2 batch executor -/

/-- One entry of the `operations` list of tools_v2.mutate_components,
projected onto the modelled payloads (`auto_position` is not modelled; no
claim concerns it). -/
structure MutOp where
  op : String
  id : Option String
  payload : Option CreateKwargs
  parent_id : Option String
  order_ids : Option (List String)
deriving Repr, DecidableEq

/-- Per-operation result, as far as the claims observe it. -/
inductive OpResult where
  | createOk (c : Comp)
  | editOk (c : Comp)
  | removeOk (success : Bool)
  | reorderOk (parentArg : Option String)
  | err (op : String) (msg : String)
deriving Repr, DecidableEq

/-- tools_v2._execute_edit, on the modelled fields: find the target, merge
the present payload fields into it, then re-validate the merged record
against the create schema.  A missing target is reported as an error entry
(not an exception).  Note the merge happens before the validation, so a
failing validation still leaves the in-memory document mutated. -/
def executeEditV2 (items : Doc) (opId : Option String) (payload : Option CreateKwargs) :
    Except String (Doc × OpResult) :=
  match opId with
  | none => .error "Edit operation requires id"
  | some cid =>
      match payload with
      | none => .error "Edit operation requires payload"
      | some u =>
          match findById items cid with
          | none => .ok (items, .err "edit" "Component not found")
          | some _ =>
              let upd := fun (c : Comp) =>
                if c.id = cid then
                  { c with
                    relIn := match u.relIn with | some r => some r | none => c.relIn,
                    relTo := match u.relTo with | some r => some r | none => c.relTo,
                    left := match u.left with | some v => some v | none => c.left,
                    top := match u.top with | some v => some v | none => c.top,
                    right := match u.right with | some v => some v | none => c.right,
                    bottom := match u.bottom with | some v => some v | none => c.bottom,
                    width := match u.width with | some v => some v | none => c.width,
                    height := match u.height with | some v => some v | none => c.height,
                    content := match u.content with | some v => some v | none => c.content }
                else c
              let items' := items.map upd
              match findById items' cid with
              | none => .error "unreachable"
              | some t =>
                  if validCreateInput { kwBase t.kind with relIn := t.relIn, relTo := t.relTo } then
                    .ok (items', .editOk t)
                  else .error "CreateInput validation failed"

/-- tools_v2._execute_remove: requires an id, then prunes only the matching
record (no relIn descendants) and renumbers. -/
def executeRemoveV2 (items : Doc) (opId : Option String) :
    Except String (Doc × OpResult) :=
  match opId with
  | none => .error "Remove operation requires id"
  | some cid =>
      let r := removeTool items cid
      .ok (r.1, .removeOk r.2)

/-- tools_v2._execute_reorder: requires a non-empty order_ids list. -/
def executeReorderV2 (items : Doc) (parentArg : Option String)
    (orderIds : Option (List String)) : Except String (Doc × OpResult) :=
  match orderIds with
  | none => .error "Reorder operation requires order_ids"
  | some [] => .error "Reorder operation requires order_ids"
  | some ids => .ok (executeReorder items parentArg ids, .reorderOk parentArg)

/-- Dispatch of one operation inside tools_v2.mutate_components.  The
fresh-id supply replaces `generate_id()`; a create without an explicit
payload id consumes its head. -/
def execMutOp (items : Doc) (fids : List String) (o : MutOp) :
    Except String (Doc × List String × OpResult) :=
  if o.op = "create" then
    match o.payload with
    | none => .error "Create operation requires payload"
    | some kw =>
        let fid := fids.headD "GENERATED-ID"
        let fids' := if kw.id.isSome then fids else fids.tail
        match createV2 items kw fid with
        | .ok (items', c) => .ok (items', fids', .createOk c)
        | .error e => .error e
  else if o.op = "edit" then
    match executeEditV2 items o.id o.payload with
    | .ok (items', r) => .ok (items', fids, r)
    | .error e => .error e
  else if o.op = "remove" then
    match executeRemoveV2 items o.id with
    | .ok (items', r) => .ok (items', fids, r)
    | .error e => .error e
  else if o.op = "reorder" then
    match executeReorderV2 items o.parent_id o.order_ids with
    | .ok (items', r) => .ok (items', fids, r)
    | .error e => .error e
  else .ok (items, fids, .err o.op "Unknown operation")

/-- The operation loop of tools_v2.mutate_components: each operation runs
inside a try/except; an exception is recorded as an error entry for that
operation and the loop continues with the (possibly partially mutated)
in-memory page. -/
def mutateLoop : Doc → List String → List MutOp → Doc × List OpResult
  | items, _, [] => (items, [])
  | items, fids, o :: rest =>
      match execMutOp items fids o with
      | .ok (items', fids', r) =>
          let t := mutateLoop items' fids' rest
          (t.1, r :: t.2)
      | .error e =>
          let t := mutateLoop items fids rest
          (t.1, .err o.op e :: t.2)

/-- tools_v2.mutate_components: load the page, run every operation, and
save the resulting page unconditionally — the first component of the
returned pair is what `save_page` persists, whether or not any operation
failed. -/
def mutateComponents (items : Doc) (ops : List MutOp) (fids : List String) :
    Doc × List OpResult :=
  mutateLoop items fids ops

/-! ## C2: round-trip offset law -/

/-- C2 (confirmed).  For a create of a child under an existing parent where
the caller supplies absolute left/top/width/height, the parent record has
absolute left/top/width/height, and the relIn offsets are omitted, the
computed relIn satisfies parent.left + relIn.left = child.left,
parent.top + relIn.top = child.top,
parent.left + parent.width + relIn.right = child.left + child.width and
parent.top + parent.height + relIn.bottom = child.top + child.height:
the child's absolute box is reconstructed exactly from the parent box and
the offsets. -/
theorem relIn_roundtrip (rk : Option RelIn) (parent : Comp)
    (l t w h pl pt pw ph : Int)
    (hrk : rk = none ∨ ∃ i, rk = some ⟨i, none, none, none, none⟩)
    (hpl : parent.left = some pl) (hpt : parent.top = some pt)
    (hpw : parent.width = some pw) (hph : parent.height = some ph) :
    ∃ rl rt rr rb : Int,
      (fillRelInOffsets rk parent (some l) (some t) (some w) (some h)).left = some rl ∧
      (fillRelInOffsets rk parent (some l) (some t) (some w) (some h)).top = some rt ∧
      (fillRelInOffsets rk parent (some l) (some t) (some w) (some h)).right = some rr ∧
      (fillRelInOffsets rk parent (some l) (some t) (some w) (some h)).bottom = some rb ∧
      pl + rl = l ∧ pt + rt = t ∧ pl + pw + rr = l + w ∧ pt + ph + rb = t + h := by
  refine ⟨l - pl, t - pt, -(pw - ((l - pl) + w)), -(ph - ((t - pt) + h)), ?_⟩
  rcases hrk with h0 | ⟨i, h0⟩
  · subst h0
    simp [fillRelInOffsets, fillId, fillLeft, fillTop, fillRight, fillBottom,
      hpl, hpt, hpw, hph]
    omega
  · subst h0
    cases i with
    | none =>
        simp [fillRelInOffsets, fillId, fillLeft, fillTop, fillRight, fillBottom,
          hpl, hpt, hpw, hph]
        omega
    | some s =>
        simp [fillRelInOffsets, fillId, fillLeft, fillTop, fillRight, fillBottom,
          hpl, hpt, hpw, hph]
        omega

/-- A concrete parent component, taken from the spec's worked example:
a SECTION at absolute (left 0, top 90, width 1300, height 760). -/
def parentW : Comp :=
  { id := "SEC-1", kind := "SECTION", relIn := none, relTo := none,
    left := some 0, top := some 90, right := none, bottom := none,
    width := some 1300, height := some 760, orderIndex := some 0,
    content := none }

/-- Witness for C2, at the spec's own example: parent box (0, 90, 1300, 760),
child box (185, 250, 680, 260). -/
theorem relIn_roundtrip_witness :
    ∃ rl rt rr rb : Int,
      (fillRelInOffsets none parentW (some 185) (some 250) (some 680) (some 260)).left = some rl ∧
      (fillRelInOffsets none parentW (some 185) (some 250) (some 680) (some 260)).top = some rt ∧
      (fillRelInOffsets none parentW (some 185) (some 250) (some 680) (some 260)).right = some rr ∧
      (fillRelInOffsets none parentW (some 185) (some 250) (some 680) (some 260)).bottom = some rb ∧
      (0 : Int) + rl = 185 ∧ (90 : Int) + rt = 250 ∧
      (0 : Int) + 1300 + rr = 185 + 680 ∧ (90 : Int) + 760 + rb = 250 + 260 :=
  relIn_roundtrip none parentW 185 250 680 260 0 90 1300 760
    (Or.inl rfl) rfl rfl rfl rfl

/-! ## C3: order invariant after create / remove / reorder -/

/-- C3 (confirmed).  After every create, remove or reorder operation, every
sibling group (components sharing one `relIn.id`; parentless components
form the top-level group) carries orderIndex values exactly 0, 1, ..., n-1,
contiguous with no gaps or duplicates.  Create and remove renumber
unconditionally; reorder on an empty sibling group is an explicit no-op
(early `return []`), so there the invariant carries over from the input
document. -/
theorem orderInvariant_after_ops :
    (∀ (items : Doc) (kw : CreateKwargs) (fid : String) (res : Doc × Comp),
        createV2 items kw fid = Except.ok res → orderInvariant res.1) ∧
    (∀ (items : Doc) (cid : String), orderInvariant (removeTool items cid).1) ∧
    (∀ (items : Doc) (pid : Option String) (oids : List String),
        orderInvariant items → orderInvariant (executeReorder items pid oids)) := by
  refine ⟨?_, ?_, ?_⟩
  · intro items kw fid res h
    unfold createV2 at h
    dsimp only at h
    repeat' split at h
    all_goals
      first
        | (simp only [Except.ok.injEq] at h; subst h; exact orderInvariant_renumber _)
        | (simp at h; done)
  · intro items cid
    exact orderInvariant_renumber _
  · intro items pid oids hinv
    unfold executeReorder
    dsimp only
    split
    · exact hinv
    · exact orderInvariant_renumber _

/-- The component the witness create produces (before renumbering). -/
def createdW : Comp :=
  { id := "NEW-1", kind := "SECTION", relIn := none,
    relTo := some ⟨some DEFAULT_HEADER_ID, some 0⟩, left := none, top := none,
    right := none, bottom := none, width := none, height := none,
    orderIndex := none, content := none }

/-- Witness for C3: a concrete create, remove and reorder, each yielding a
document satisfying the order invariant. -/
theorem orderInvariant_after_ops_witness :
    orderInvariant [{ createdW with orderIndex := some 0 }] ∧
    orderInvariant ((removeTool [parentW] "SEC-1").1) ∧
    orderInvariant (executeReorder [parentW] none ["SEC-1"]) := by
  refine ⟨?_, ?_, ?_⟩
  · exact orderInvariant_after_ops.1 [] { kwBase "SECTION" with id := some "NEW-1" }
      "X" ([{ createdW with orderIndex := some 0 }], createdW) rfl
  · exact orderInvariant_after_ops.2.1 [parentW] "SEC-1"
  · refine orderInvariant_after_ops.2.2 [parentW] none ["SEC-1"] ?_
    intro p
    cases p with
    | none => rfl
    | some s => rfl

/-! ## C4: section parentlessness -/

/-- An existing container at (0, 0, 100, 100), used as a resolvable
`relIn.id` target. -/
def xContainer : Comp :=
  { id := "X1", kind := "CONTAINER", relIn := none, relTo := none,
    left := some 0, top := some 0, right := none, bottom := none,
    width := some 100, height := some 100, orderIndex := some 0,
    content := none }

/-- The SECTION create payload of the C4 counterexample: the caller
supplies a relIn whose id names the existing container. -/
def kwSectionWithRelIn : CreateKwargs :=
  { kwBase "SECTION" with
    id := some "S-NEW",
    relIn := some ⟨some "X1", none, none, none, none⟩,
    relTo := some ⟨some DEFAULT_HEADER_ID, some 0⟩,
    left := some 10, top := some 20, width := some 30, height := some 40 }

/-- Counterexample to C4.  The v1 create tool briefly strips a SECTION's
`relIn`, but it has already copied `relIn.id` into `parent_id`; when that
id resolves to an existing component, the parent block rebuilds `relIn`
and the section is persisted with a non-null `relIn` — the claim that the
supplied relIn is silently stripped, so that every created SECTION has
`relIn == null`, is false. -/
theorem section_relIn_survives_counterexample :
    (createV1 [xContainer] kwSectionWithRelIn "GEN").toOption.map
        (fun r => (r.2.kind, r.2.relIn)) =
      some ("SECTION", some ⟨some "X1", some 10, some 20, some (-60), some (-40)⟩) ∧
    (some (⟨some "X1", some 10, some 20, some (-60), some (-40)⟩ : RelIn) :
        Option RelIn) ≠ none := by
  refine ⟨by decide, by decide⟩

theorem createV1Rest_relIn_none (items : Doc) (kw : CreateKwargs) (fid : String)
    (res : Doc × Comp) (hri : kw.relIn = none) (hp : kw.parent_id = none)
    (h : createV1Rest items kw fid = Except.ok res) : res.2.relIn = none := by
  unfold createV1Rest at h
  dsimp only at h
  rw [hp, hri] at h
  rw [if_neg (show ¬((none : Option String).isSome = true ∧
      (none : Option RelIn) = none) by simp)] at h
  repeat' split at h
  all_goals
    first
      | (simp only [Except.ok.injEq] at h; subst h; simp [buildComponent, hri]; done)
      | (simp at h; done)

/-- C4 as amended.  A SECTION's relIn is null after create whenever the
supplied relIn carries no id and no parent_id is given: the v1 create
strips it silently, and the v2 create preserves the absent relIn (an
id-less relIn is instead rejected by validation there).  When the caller's
relIn.id resolves to an existing component, however, the v1 create
persists a recomputed non-null relIn on the section (see the
counterexample), so the unconditional claim does not hold. -/
theorem createV2_ok_relIn_eq (items : Doc) (kw : CreateKwargs) (fid : String)
    (res : Doc × Comp) (h : createV2 items kw fid = Except.ok res) :
    res.2.relIn = kw.relIn := by
  unfold createV2 at h
  dsimp only at h
  repeat' split at h
  all_goals
    first
      | (simp only [Except.ok.injEq] at h; subst h; simp [buildComponent]; done)
      | (simp at h; done)

theorem createV2_ok_relIn_none (items : Doc) (kw : CreateKwargs) (fid : String)
    (res : Doc × Comp) (h : createV2 items kw fid = Except.ok res)
    (hbind : kw.relIn.bind (fun r => r.id) = none) : kw.relIn = none := by
  cases hr : kw.relIn with
  | none => rfl
  | some r =>
      exfalso
      have hid : r.id = none := by simpa [hr] using hbind
      unfold createV2 at h
      dsimp only at h
      repeat' split at h
      all_goals simp_all [validCreateInput]

/-- C4 as amended.  A SECTION's relIn is null after create whenever the
supplied relIn carries no id and no parent_id is given: the v1 create
strips it silently (in both its relTo branches), and the v2 create only
succeeds with an absent relIn in that situation, which it preserves.  When
the caller's relIn.id resolves to an existing component, however, the v1
create persists a recomputed non-null relIn on the section and the v2
create persists the supplied relIn unchanged (see the counterexample), so
the unconditional claim does not hold. -/
theorem section_relIn_null_when_unresolvable :
    (∀ (items : Doc) (kw : CreateKwargs) (fid : String) (res : Doc × Comp),
        kw.kind = "SECTION" →
        kw.relIn.bind (fun r => r.id) = none →
        kw.parent_id = none →
        createV1 items kw fid = Except.ok res → res.2.relIn = none) ∧
    (∀ (items : Doc) (kw : CreateKwargs) (fid : String) (res : Doc × Comp),
        kw.kind = "SECTION" →
        kw.relIn.bind (fun r => r.id) = none →
        kw.parent_id = none →
        createV2 items kw fid = Except.ok res → res.2.relIn = none) := by
  constructor
  · intro items kw fid res hk hri hp h
    unfold createV1 at h
    dsimp only at h
    rw [hk, hri, hp] at h
    try dsimp only at h
    repeat' split at h
    all_goals
      first
        | exact createV1Rest_relIn_none _ _ _ _ rfl rfl h
        | simp_all
  · intro items kw fid res hk hri hp h
    rw [createV2_ok_relIn_eq items kw fid res h]
    exact createV2_ok_relIn_none items kw fid res h hri

/-- Witness for the amended C4: concrete SECTION creates with no relIn, in
both pipelines, really do yield components whose relIn is null. -/
theorem section_relIn_null_witness :
    (([{ createdW with orderIndex := some 0 }], createdW) : Doc × Comp).2.relIn
        = none ∧
    (([{ createdW with orderIndex := some 0 }], createdW) : Doc × Comp).2.relIn
        = none := by
  constructor
  · exact section_relIn_null_when_unresolvable.1 []
      { kwBase "SECTION" with id := some "NEW-1" } "F"
      ([{ createdW with orderIndex := some 0 }], createdW) rfl rfl rfl rfl
  · exact section_relIn_null_when_unresolvable.2 []
      { kwBase "SECTION" with id := some "NEW-1" } "F"
      ([{ createdW with orderIndex := some 0 }], createdW) rfl rfl rfl rfl

/-! ## C6: section auto-chaining -/

theorem foldl_last_max (l : List Comp) (a : Comp) :
    (l.foldl (fun best s => if oiKey best ≤ oiKey s then s else best) a = a ∨
      l.foldl (fun best s => if oiKey best ≤ oiKey s then s else best) a ∈ l) ∧
    oiKey a ≤ oiKey (l.foldl (fun best s => if oiKey best ≤ oiKey s then s else best) a) ∧
    ∀ s ∈ l, oiKey s ≤ oiKey (l.foldl (fun best s => if oiKey best ≤ oiKey s then s else best) a) := by
  induction l generalizing a with
  | nil => exact ⟨Or.inl rfl, le_refl _, by simp⟩
  | cons s t ih =>
      obtain ⟨hmem, hle, hmax⟩ := ih (if oiKey a ≤ oiKey s then s else a)
      rw [List.foldl_cons]
      refine ⟨?_, ?_, ?_⟩
      · rcases hmem with he | hm
        · rw [he]
          by_cases hc : oiKey a ≤ oiKey s
          · rw [if_pos hc]; exact Or.inr (List.mem_cons_self s t)
          · rw [if_neg hc]; exact Or.inl rfl
        · exact Or.inr (List.mem_cons_of_mem s hm)
      · refine le_trans ?_ hle
        by_cases hc : oiKey a ≤ oiKey s
        · rw [if_pos hc]; exact hc
        · rw [if_neg hc]
      · intro s' hs'
        rcases List.mem_cons.mp hs' with he | hm
        · rw [he]
          refine le_trans ?_ hle
          by_cases hc : oiKey a ≤ oiKey s
          · rw [if_pos hc]
          · rw [if_neg hc]; exact le_of_not_le hc
        · exact hmax s' hm

theorem createV2_ok_relTo_header (items : Doc) (kw : CreateKwargs) (fid : String)
    (res : Doc × Comp) (hk : kw.kind = "SECTION") (hrt : kw.relTo = none)
    (h : createV2 items kw fid = Except.ok res) :
    res.2.relTo = some ⟨some DEFAULT_HEADER_ID, some 0⟩ := by
  unfold createV2 at h
  dsimp only at h
  rw [hk, hrt] at h
  try dsimp only at h
  repeat' split at h
  all_goals
    first
      | (simp only [Except.ok.injEq] at h; subst h; simp [buildComponent]; done)
      | (simp at h; done)
      | simp_all

/-- C6 as amended.  In the v1 create tool a SECTION with no explicit relTo
chains as claimed: with no existing section it chains to the fixed header
anchor with below 0; with existing sections it chains to a section
attaining the highest orderIndex, with below = newTop - (last.top +
last.height) when those fields are present.  In the v2 batch create,
however, a SECTION with no relTo always chains to the header anchor with
below 0, regardless of existing sections (see the counterexample). -/
theorem section_autochain :
    (∀ (items : Doc) (top : Option Int),
        items.filter (fun c => c.kind = "SECTION") = [] →
        sectionAutoRelToV1 items top = ⟨some DEFAULT_HEADER_ID, some 0⟩) ∧
    (∀ (items : Doc) (topv : Int) (s0 : Comp) (rest : List Comp),
        items.filter (fun c => c.kind = "SECTION") = s0 :: rest →
        ∃ s ∈ items.filter (fun c => c.kind = "SECTION"),
          (∀ s' ∈ items.filter (fun c => c.kind = "SECTION"), oiKey s' ≤ oiKey s) ∧
          (sectionAutoRelToV1 items (some topv)).id = some s.id ∧
          (∀ st sh : Int, s.top = some st → s.height = some sh →
            (sectionAutoRelToV1 items (some topv)).below = some (topv - (st + sh)))) ∧
    (∀ (items : Doc) (kw : CreateKwargs) (fid : String) (res : Doc × Comp),
        kw.kind = "SECTION" → kw.relTo = none →
        createV2 items kw fid = Except.ok res →
        res.2.relTo = some ⟨some DEFAULT_HEADER_ID, some 0⟩) := by
  refine ⟨?_, ?_, ?_⟩
  · intro items top hempty
    unfold sectionAutoRelToV1
    rw [hempty]
  · intro items topv s0 rest hfilter
    obtain ⟨hmem, hle, hmax⟩ := foldl_last_max rest s0
    refine ⟨rest.foldl (fun best s => if oiKey best ≤ oiKey s then s else best) s0,
      ?_, ?_, ?_, ?_⟩
    · rw [hfilter]
      rcases hmem with he | hm
      · rw [he]; exact List.mem_cons_self _ _
      · exact List.mem_cons_of_mem _ hm
    · intro s' hs'
      rw [hfilter] at hs'
      rcases List.mem_cons.mp hs' with he | hm
      · subst he; exact hle
      · exact hmax s' hm
    · unfold sectionAutoRelToV1
      rw [hfilter]
    · intro st sh hst hsh
      unfold sectionAutoRelToV1
      rw [hfilter]
      dsimp only
      rw [hst, hsh]
  · intro items kw fid res hk hrt h
    exact createV2_ok_relTo_header items kw fid res hk hrt h

/-- The second-section create payload of the C6 counterexample and the
spec's own worked example: top 690. -/
def kwSecondSection : CreateKwargs :=
  { kwBase "SECTION" with
    id := some "NEW-2", left := some 0, top := some 690,
    width := some 1300, height := some 500 }

/-- Counterexample to C6.  With an existing SECTION "SEC-1" (top 90, height
600, orderIndex 0), the v2 batch create of a SECTION with top 690 and no
relTo sets relTo to the fixed header anchor with below 0 — not to
{id: "SEC-1", below: 690 - (90 + 600)} as the claim requires; the header
anchor id is not the existing section's id. -/
theorem section_autochain_counterexample :
    (createV2 [parentW] kwSecondSection "N2").toOption.map (fun r => r.2.relTo) =
      some (some ⟨some DEFAULT_HEADER_ID, some 0⟩) ∧
    DEFAULT_HEADER_ID ≠ "SEC-1" ∧
    (parentW.kind = "SECTION" ∧ parentW.id = "SEC-1") := by
  exact ⟨by decide, by decide, by decide, by decide⟩

/-- Witness for the amended C6: the v1 chaining on a concrete page with one
section, the v1 chaining on an empty page, and a concrete v2 create. -/
theorem section_autochain_witness :
    sectionAutoRelToV1 [] (some 90) = ⟨some DEFAULT_HEADER_ID, some 0⟩ ∧
    (∃ s ∈ [parentW].filter (fun c => c.kind = "SECTION"),
      (∀ s' ∈ [parentW].filter (fun c => c.kind = "SECTION"), oiKey s' ≤ oiKey s) ∧
      (sectionAutoRelToV1 [parentW] (some 690)).id = some s.id ∧
      (∀ st sh : Int, s.top = some st → s.height = some sh →
        (sectionAutoRelToV1 [parentW] (some 690)).below = some (690 - (st + sh)))) ∧
    (([{ createdW with orderIndex := some 0 }], createdW) : Doc × Comp).2.relTo =
      some ⟨some DEFAULT_HEADER_ID, some 0⟩ := by
  refine ⟨?_, ?_, ?_⟩
  · exact section_autochain.1 [] (some 90) rfl
  · exact section_autochain.2.1 [parentW] 690 parentW [] rfl
  · exact section_autochain.2.2 []
      { kwBase "SECTION" with id := some "NEW-1" } "F"
      ([{ createdW with orderIndex := some 0 }], createdW) rfl rfl rfl

/-! ## C7: non-section parent requirement -/

/-- A TEXT create payload with no relIn and no parent_id. -/
def kwTextNoRelIn : CreateKwargs :=
  { kwBase "TEXT" with
    id := some "T-NEW", left := some 5, top := some 6,
    width := some 7, height := some 8, content := some "hello" }

/-- A TEXT create payload whose relIn.id names no existing component. -/
def kwTextGhostRelIn : CreateKwargs :=
  { kwBase "TEXT" with
    id := some "T-GHOST", left := some 5, top := some 6,
    width := some 7, height := some 8,
    relIn := some ⟨some "GHOST", some 1, some 2, none, none⟩ }

/-- Counterexample to C7.  A TEXT (kind ≠ SECTION) created with no relIn
and no parent_id is accepted by the v1 create and stored with relIn null —
no rejection happens; and the v2 batch create accepts a relIn whose id
names no existing component, persisting it unchanged, so non-SECTION
components need not reference an existing component either. -/
theorem nonsection_relIn_not_required_counterexample :
    (createV1 [xContainer] kwTextNoRelIn "G1").toOption.map
        (fun r => (r.2.kind, r.2.relIn)) = some ("TEXT", none) ∧
    (createV2 [] kwTextGhostRelIn "G2").toOption.map
        (fun r => (r.2.kind, r.2.relIn)) =
      some ("TEXT", some ⟨some "GHOST", some 1, some 2, none, none⟩) ∧
    findById [] "GHOST" = none := by
  exact ⟨by decide, by decide, by decide⟩

/-- C7 as amended.  The v1 create does reject a create whose effective
parent reference (parent_id, or else relIn.id) does not resolve to an
existing component — for any kind.  But a non-SECTION create with no
relIn and no parent_id at all is accepted and stored with relIn null (see
the counterexample), and no placeholder-pattern check is applied to
relIn.id: placeholder-looking ids are rejected only because they fail to
resolve. -/
theorem create_rejects_unknown_parent (items : Doc) (kw : CreateKwargs)
    (fid : String) (p : String)
    (heff : kw.parent_id = some p ∨
      (kw.parent_id = none ∧ kw.relIn.bind (fun r => r.id) = some p))
    (hfind : findById items p = none) :
    createV1 items kw fid = Except.error "relIn/parent_id references unknown id" := by
  unfold createV1
  dsimp only
  rcases heff with hpid | ⟨hpid, hbind⟩
  · rw [hpid]
    rw [if_neg (show ¬(some p = (none : Option String) ∧
        (kw.relIn.bind fun r => r.id).isSome = true) by simp)]
    by_cases hk : kw.kind = "SECTION"
    · rw [if_pos hk]
      cases hrt : kw.relTo with
      | none => dsimp only; rw [hfind]
      | some rt => dsimp only; rw [hfind]
    · rw [if_neg hk]
      dsimp only
      rw [hfind]
  · rw [hpid, hbind]
    rw [if_pos (show (none : Option String) = none ∧ (some p).isSome = true
        from ⟨rfl, rfl⟩)]
    by_cases hk : kw.kind = "SECTION"
    · rw [if_pos hk]
      cases hrt : kw.relTo with
      | none => dsimp only; rw [hfind]
      | some rt => dsimp only; rw [hfind]
    · rw [if_neg hk]
      dsimp only
      rw [hfind]

/-- Witness for the amended C7: a create naming a nonexistent parent is
rejected with the reference error. -/
theorem create_rejects_unknown_parent_witness :
    createV1 [] { kwBase "TEXT" with parent_id := some "NOPE" } "W7" =
      Except.error "relIn/parent_id references unknown id" :=
  create_rejects_unknown_parent [] { kwBase "TEXT" with parent_id := some "NOPE" }
    "W7" "NOPE" (Or.inl rfl) rfl

/-! ## C8: CDATA handling on create -/

theorem dropWhile_ws_cons_nonws (c : Char) (hc : c.isWhitespace = false)
    (l : List Char) :
    List.dropWhile Char.isWhitespace (c :: l) = c :: l := by
  rw [List.dropWhile_cons, if_neg]
  simp [hc]

theorem isPrefixOf_append_self : ∀ (A B : List Char), A.isPrefixOf (A ++ B) = true := by
  intro A B
  induction A with
  | nil => simp [List.isPrefixOf]
  | cons a t ih => simpa [List.isPrefixOf] using ih

theorem pyStrip_cdata_wrapped (m : List Char) :
    pyStrip (cdataOpen ++ (m ++ cdataClose)) = cdataOpen ++ (m ++ cdataClose) := by
  unfold pyStrip
  have h1 : List.dropWhile Char.isWhitespace (cdataOpen ++ (m ++ cdataClose))
      = cdataOpen ++ (m ++ cdataClose) := by
    rw [show cdataOpen ++ (m ++ cdataClose)
        = '<' :: ("![CDATA[".data ++ (m ++ cdataClose)) from rfl]
    exact dropWhile_ws_cons_nonws '<' (by decide) _
  rw [h1]
  have h2 : (cdataOpen ++ (m ++ cdataClose)).reverse
      = '>' :: (']' :: ']' :: [] ++ (cdataOpen ++ m).reverse) := by
    rw [← List.append_assoc, List.reverse_append]
    rfl
  rw [h2, dropWhile_ws_cons_nonws '>' (by decide) _, ← h2, List.reverse_reverse]

/-- The create-time CDATA handling: a content value that is exactly a
CDATA-wrapped string (for any inner string, even one that itself contains
a CDATA wrapper) is replaced by the inner string — it is not rejected. -/
theorem stripCDATA_wrap (s : String) :
    stripCDATA ("<![CDATA[" ++ s ++ "]]>") = s := by
  unfold stripCDATA
  rw [show ("<![CDATA[" ++ s ++ "]]>").data
      = cdataOpen ++ (s.data ++ cdataClose) by
    rw [String.data_append, String.data_append, List.append_assoc]
    rfl]
  rw [pyStrip_cdata_wrapped]
  rw [if_pos]
  · rw [List.drop_left]
    have hlen : (s.data ++ cdataClose).length - cdataClose.length
        = s.data.length := by
      simp [List.length_append]
    rw [hlen, List.take_left]
  · constructor
    · exact isPrefixOf_append_self _ _
    · show List.isSuffixOf _ _ = true
      unfold List.isSuffixOf
      rw [← List.append_assoc, List.reverse_append]
      exact isPrefixOf_append_self _ _

theorem createV1Rest_ok_content (items : Doc) (kw : CreateKwargs) (fid : String)
    (res : Doc × Comp) (h : createV1Rest items kw fid = Except.ok res) :
    res.2.content = kw.content := by
  unfold createV1Rest at h
  dsimp only at h
  repeat' split at h
  all_goals
    first
      | (simp only [Except.ok.injEq] at h; subst h; simp [buildComponent]; done)
      | (simp at h; done)

/-- C8 as amended, create-side: a successful v1 create stores exactly the
caller's content with one outer CDATA wrapper stripped (tools.create lines
116-124); same for the v2 batch create (tools_v2 lines 288-293); and the
stripping law above.  Nothing is rejected because of CDATA. -/
theorem create_strips_cdata :
    (∀ s : String, stripCDATA ("<![CDATA[" ++ s ++ "]]>") = s) ∧
    (∀ (items : Doc) (kw : CreateKwargs) (fid : String) (res : Doc × Comp),
        createV1 items kw fid = Except.ok res →
        res.2.content = kw.content.map stripCDATA) ∧
    (∀ (items : Doc) (kw : CreateKwargs) (fid : String) (res : Doc × Comp),
        createV2 items kw fid = Except.ok res →
        res.2.content = kw.content.map stripCDATA) := by
  refine ⟨stripCDATA_wrap, ?_, ?_⟩
  · intro items kw fid res h
    unfold createV1 at h
    dsimp only at h
    repeat' split at h
    all_goals
      first
        | (rw [createV1Rest_ok_content _ _ _ _ h]; done)
        | (rw [createV1Rest_ok_content _ _ _ _ h]; simp; done)
        | (simp at h; done)
  · intro items kw fid res h
    unfold createV2 at h
    dsimp only at h
    repeat' split at h
    all_goals
      first
        | (simp only [Except.ok.injEq] at h; subst h; simp [buildComponent]; done)
        | (simp at h; done)

/-- A TEXT create payload whose content is CDATA-wrapped HTML. -/
def kwCdataContent : CreateKwargs :=
  { kwBase "TEXT" with id := some "C1", content := some "<![CDATA[<p>hi</p>]]>" }

/-- A TEXT create payload whose content is doubly CDATA-wrapped. -/
def kwCdataDouble : CreateKwargs :=
  { kwBase "TEXT" with id := some "C2", content := some "<![CDATA[<![CDATA[x]]>]]>" }

/-- Counterexample to C8.  A create whose content is CDATA-wrapped HTML is
not rejected: it succeeds and stores the content with the wrapper
stripped.  Moreover a doubly wrapped content is stripped only once, so the
stored record still contains literal CDATA-wrapped content. -/
theorem cdata_not_rejected_counterexample :
    (createV2 [] kwCdataContent "F1").toOption.map (fun r => r.2.content) =
      some (some "<p>hi</p>") ∧
    (createV2 [] kwCdataDouble "F2").toOption.map (fun r => r.2.content) =
      some (some "<![CDATA[x]]>") ∧
    (cdataOpen.isPrefixOf "<![CDATA[x]]>".data = true ∧
      cdataClose.isSuffixOf "<![CDATA[x]]>".data = true) := by
  refine ⟨by decide, by decide, by decide, by decide⟩

/-- The component stored by the witness create of C8. -/
def compW8 : Comp :=
  { id := "W8", kind := "SECTION", relIn := none,
    relTo := some ⟨some DEFAULT_HEADER_ID, some 0⟩, left := none, top := none,
    right := none, bottom := none, width := none, height := none,
    orderIndex := none, content := some "z" }

/-- Witness for the amended C8: the strip law at a concrete string, and
concrete v1 / v2 creates whose stored content is the stripped content. -/
theorem create_strips_cdata_witness :
    stripCDATA ("<![CDATA[" ++ "<p>hi</p>" ++ "]]>") = "<p>hi</p>" ∧
    (([{ compW8 with orderIndex := some 0 }], compW8) : Doc × Comp).2.content =
      (some "<![CDATA[z]]>").map stripCDATA ∧
    (([{ compW8 with orderIndex := some 0 }], compW8) : Doc × Comp).2.content =
      (some "<![CDATA[z]]>").map stripCDATA := by
  refine ⟨create_strips_cdata.1 "<p>hi</p>", ?_, ?_⟩
  · exact create_strips_cdata.2.1 []
      { kwBase "SECTION" with id := some "W8", content := some "<![CDATA[z]]>" }
      "F" ([{ compW8 with orderIndex := some 0 }], compW8) rfl
  · exact create_strips_cdata.2.2 []
      { kwBase "SECTION" with id := some "W8", content := some "<![CDATA[z]]>" }
      "F" ([{ compW8 with orderIndex := some 0 }], compW8) rfl

/-! ## C1: batch atomicity of mutate_components -/

/-- A batch create of a SECTION with explicit id NEW-1. -/
def opCreateW : MutOp :=
  ⟨"create", none, some { kwBase "SECTION" with id := some "NEW-1" }, none, none⟩

/-- A batch remove with the required id missing: raises inside the loop. -/
def opRemoveNoId : MutOp := ⟨"remove", none, none, none, none⟩

/-- C1 evaluated at the failing input.  In the batch [create NEW-1,
remove-without-id] the second operation raises; mutate_components catches
it, records an error entry, and still persists the page — the persisted
document is not the pre-batch document, and the first operation's
component is visible in storage.  The claim of all-or-nothing persistence
is contradicted by the code (and the code in turn contradicts the
repository's own test test_failed_edit_does_not_mutate_page and the
fail-fast wording of descriptions.py). -/
theorem mutate_persists_despite_error :
    (mutateComponents [parentW] [opCreateW, opRemoveNoId] []).2 =
      [OpResult.createOk createdW,
        OpResult.err "remove" "Remove operation requires id"] ∧
    (mutateComponents [parentW] [opCreateW, opRemoveNoId] []).1 ≠ [parentW] ∧
    (mutateComponents [parentW] [opCreateW, opRemoveNoId] []).1.map (fun c => c.id) =
      ["SEC-1", "NEW-1"] := by
  refine ⟨by decide, by decide, by decide⟩

/-! ## C5: removal with transitive relIn descendants -/

theorem subset_expandStep (items : Doc) (S : Finset String) :
    S ⊆ expandStep items S :=
  Finset.subset_union_left

theorem expandStep_subset_univ (items : Doc) (targets S : Finset String)
    (hS : S ⊆ pruneUniv items targets) :
    expandStep items S ⊆ pruneUniv items targets := by
  intro x hx
  rcases Finset.mem_union.mp hx with h | h
  · exact hS h
  · simp only [List.mem_toFinset, List.mem_map, List.mem_filter] at h
    obtain ⟨c, ⟨hc, _⟩, hid⟩ := h
    exact Finset.mem_union.mpr (Or.inr (by
      simp only [List.mem_toFinset, List.mem_map]
      exact ⟨c, hc, hid⟩))

theorem iterate_subset_univ (items : Doc) (targets : Finset String) :
    ∀ k, (expandStep items)^[k] targets ⊆ pruneUniv items targets := by
  intro k
  induction k with
  | zero => exact fun x hx => Finset.mem_union.mpr (Or.inl hx)
  | succ k ih =>
      rw [Function.iterate_succ_apply']
      exact expandStep_subset_univ items targets _ ih

theorem iterate_mono_step (items : Doc) (targets : Finset String) (k : Nat) :
    (expandStep items)^[k] targets ⊆ (expandStep items)^[k + 1] targets := by
  rw [Function.iterate_succ_apply']
  exact subset_expandStep items _

theorem iterate_stable_of_eq (items : Doc) (S : Finset String)
    (h : expandStep items S = S) : ∀ m, (expandStep items)^[m] S = S := by
  intro m
  induction m with
  | zero => rfl
  | succ m ih => rw [Function.iterate_succ_apply', ih, h]

theorem exists_stable_index (items : Doc) (targets : Finset String) :
    ∃ j < (pruneUniv items targets).card + 1,
      (expandStep items)^[j + 1] targets = (expandStep items)^[j] targets := by
  by_contra hcon
  push_neg at hcon
  have hgrow : ∀ k ≤ (pruneUniv items targets).card + 1,
      targets.card + k ≤ ((expandStep items)^[k] targets).card := by
    intro k
    induction k with
    | zero => intro _; simp
    | succ k ih =>
        intro hk
        have hk' : k ≤ (pruneUniv items targets).card + 1 := Nat.le_of_succ_le hk
        have h1 := ih hk'
        have hne := hcon k (Nat.lt_of_lt_of_le (Nat.lt_succ_self k) hk)
        have hss : (expandStep items)^[k] targets ⊂ (expandStep items)^[k + 1] targets :=
          Finset.ssubset_iff_subset_ne.mpr
            ⟨iterate_mono_step items targets k, fun he => hne he.symm⟩
        have := Finset.card_lt_card hss
        omega
  have h1 := hgrow ((pruneUniv items targets).card + 1) (le_refl _)
  have h2 := Finset.card_le_card
    (iterate_subset_univ items targets ((pruneUniv items targets).card + 1))
  omega

theorem idsToRemove_fixed (items : Doc) (targets : Finset String) :
    expandStep items (idsToRemove items targets) = idsToRemove items targets := by
  obtain ⟨j, hj, hstab⟩ := exists_stable_index items targets
  have hrest : ∀ m, (expandStep items)^[j + m] targets = (expandStep items)^[j] targets := by
    intro m
    induction m with
    | zero => rfl
    | succ m ih =>
        have : j + (m + 1) = (j + m) + 1 := by omega
        rw [this, Function.iterate_succ_apply']
        rw [ih]
        have h2 : (expandStep items)^[j + 1] targets
            = expandStep items ((expandStep items)^[j] targets) := by
          rw [Function.iterate_succ_apply']
        rw [← h2, hstab]
  have hn : (pruneUniv items targets).card + 1 = j + ((pruneUniv items targets).card + 1 - j) := by
    omega
  unfold idsToRemove
  rw [hn, hrest]
  have h2 : (expandStep items)^[j + 1] targets
      = expandStep items ((expandStep items)^[j] targets) := by
    rw [Function.iterate_succ_apply']
  rw [← h2, hstab]

theorem targets_subset_idsToRemove (items : Doc) (targets : Finset String) :
    targets ⊆ idsToRemove items targets := by
  unfold idsToRemove
  induction ((pruneUniv items targets).card + 1) with
  | zero => exact fun x hx => hx
  | succ k ih =>
      rw [Function.iterate_succ_apply']
      exact fun x hx => subset_expandStep items _ (ih hx)

theorem idsToRemove_closed (items : Doc) (targets : Finset String)
    (c : Comp) (p : String) (hc : c ∈ items) (hrel : relParent c = some p)
    (hp : p ∈ idsToRemove items targets) : c.id ∈ idsToRemove items targets := by
  rw [← idsToRemove_fixed items targets]
  refine Finset.mem_union.mpr (Or.inr ?_)
  simp only [List.mem_toFinset, List.mem_map, List.mem_filter]
  refine ⟨c, ⟨hc, ?_⟩, rfl⟩
  rw [hrel]
  simpa using hp

theorem idsToRemove_sound (items : Doc) (targets : Finset String) :
    ∀ (k : Nat) (x : String), x ∈ (expandStep items)^[k] targets →
      x ∈ targets ∨ ∃ t ∈ targets, Relation.TransGen (childEdge items) t x := by
  intro k
  induction k with
  | zero => intro x hx; exact Or.inl hx
  | succ k ih =>
      intro x hx
      rw [Function.iterate_succ_apply'] at hx
      rcases Finset.mem_union.mp hx with h | h
      · exact ih x h
      · simp only [List.mem_toFinset, List.mem_map, List.mem_filter] at h
        obtain ⟨c, ⟨hc, hrel⟩, hid⟩ := h
        cases hrp : relParent c with
        | none => rw [hrp] at hrel; simp at hrel
        | some p =>
            rw [hrp] at hrel
            simp only [decide_eq_true_eq] at hrel
            have hedge : childEdge items p x := ⟨c, hc, hid, hrp⟩
            rcases ih p hrel with hp | ⟨t, ht, htrans⟩
            · exact Or.inr ⟨p, hp, Relation.TransGen.single hedge⟩
            · exact Or.inr ⟨t, ht, Relation.TransGen.tail htrans hedge⟩

theorem idsToRemove_complete (items : Doc) (targets : Finset String)
    (t x : String) (ht : t ∈ targets)
    (h : Relation.TransGen (childEdge items) t x) :
    x ∈ idsToRemove items targets := by
  induction h with
  | single hedge =>
      obtain ⟨c, hc, hid, hrel⟩ := hedge
      rw [← hid]
      exact idsToRemove_closed items targets c t hc hrel
        (targets_subset_idsToRemove items targets ht)
  | tail htrans hedge ih =>
      obtain ⟨c, hc, hid, hrel⟩ := hedge
      rw [← hid]
      exact idsToRemove_closed items targets c _ hc hrel ih

/-- Membership in the set collected by prune_by_ids is exactly: a target,
or a transitive relIn descendant of a target. -/
theorem mem_idsToRemove_iff (items : Doc) (targets : Finset String) (x : String) :
    x ∈ idsToRemove items targets ↔
      x ∈ targets ∨ ∃ t ∈ targets, Relation.TransGen (childEdge items) t x := by
  constructor
  · exact idsToRemove_sound items targets _ x
  · intro h
    rcases h with h | ⟨t, ht, htrans⟩
    · exact targets_subset_idsToRemove items targets h
    · exact idsToRemove_complete items targets t x ht htrans

theorem removePred_iff (items : Doc) (targets : Finset String) (c : Comp)
    (hc : c ∈ items) :
    removePred (idsToRemove items targets) c = true ↔
      c.id ∈ idsToRemove items targets := by
  constructor
  · intro h
    unfold removePred at h
    rcases Bool.or_eq_true_iff.mp h with h | h
    · simpa using h
    · cases hrp : relParent c with
      | none => rw [hrp] at h; simp at h
      | some p =>
          rw [hrp] at h
          simp only [decide_eq_true_eq] at h
          exact idsToRemove_closed items targets c p hc hrp h
  · intro h
    unfold removePred
    exact Bool.or_eq_true_iff.mpr (Or.inl (by simpa using h))

theorem length_filter_not_add_countP (p : Comp → Bool) (l : List Comp) :
    (l.filter (fun c => ¬ p c = true)).length + l.countP p = l.length := by
  induction l with
  | nil => simp
  | cons c rest ih =>
      rw [List.filter_cons, List.countP_cons, List.length_cons]
      by_cases hb : p c = true
      · rw [if_neg (by simp [hb])]
        simp only [hb, if_true]
        omega
      · rw [if_pos (by simp [hb])]
        rw [if_neg hb]
        rw [List.length_cons]
        omega

theorem countP_id_eq_one (items : Doc) (cid : String)
    (hnd : (items.map (fun c => c.id)).Nodup)
    (hm : cid ∈ items.map (fun c => c.id)) :
    items.countP (fun c => c.id = cid) = 1 := by
  induction items with
  | nil => simp at hm
  | cons c rest ih =>
      simp only [List.map_cons, List.nodup_cons] at hnd
      obtain ⟨hnot, hnd'⟩ := hnd
      simp only [List.map_cons, List.mem_cons] at hm
      rw [List.countP_cons]
      by_cases he : c.id = cid
      · subst he
        have hz : rest.countP (fun c' => c'.id = c.id) = 0 := by
          rw [List.countP_eq_zero]
          intro a ha
          simp only [decide_eq_true_eq]
          intro hcontra
          exact hnot (by rw [← hcontra]; exact List.mem_map_of_mem _ ha)
        simp [hz]
      · have hm' : cid ∈ rest.map (fun c => c.id) := by
          rcases hm with h | h
          · exact absurd h.symm he
          · exact h
        simp [he, ih hnd' hm']

/-- C5 as amended.  utils.prune_by_ids (the document-store removal used by
the batch REMOVE, execute_remove_operation) removes exactly the component
with the given id together with every component whose relIn.id chain
transitively resolves to it, reports whether anything was removed, and on
a leaf with unique ids removes exactly one record.  The standalone remove
tool (tools.remove / tools_v2._execute_remove), by contrast, removes only
the record with the matching id and leaves relIn descendants in place (see
the counterexample), so the claim does not hold of it. -/
theorem pruneByIds_removes_descendants (items : Doc) (cid : String) :
    (∀ c ∈ items, (c ∈ (pruneByIds items {cid}).1 ↔
        ¬(c.id = cid ∨ Relation.TransGen (childEdge items) cid c.id))) ∧
    ((pruneByIds items {cid}).2 = true ↔
      ∃ c ∈ items, c.id = cid ∨ Relation.TransGen (childEdge items) cid c.id) ∧
    ((items.map (fun c => c.id)).Nodup → cid ∈ items.map (fun c => c.id) →
      (∀ y, ¬ Relation.TransGen (childEdge items) cid y) →
      (pruneByIds items {cid}).1.length + 1 = items.length) := by
  have hchar : ∀ c ∈ items, (removePred (idsToRemove items {cid}) c = true ↔
      (c.id = cid ∨ Relation.TransGen (childEdge items) cid c.id)) := by
    intro c hc
    rw [removePred_iff items {cid} c hc, mem_idsToRemove_iff]
    simp only [Finset.mem_singleton]
    constructor
    · rintro (h | ⟨t, rfl, htr⟩)
      · exact Or.inl h
      · exact Or.inr htr
    · rintro (h | htr)
      · exact Or.inl h
      · exact Or.inr ⟨cid, rfl, htr⟩
  refine ⟨?_, ?_, ?_⟩
  · intro c hc
    unfold pruneByIds
    dsimp only
    rw [List.mem_filter]
    constructor
    · rintro ⟨-, hpred⟩
      simp only [decide_eq_true_eq] at hpred
      intro hcontra
      exact hpred ((hchar c hc).mpr hcontra)
    · intro hcontra
      refine ⟨hc, ?_⟩
      simp only [decide_eq_true_eq]
      intro hpred
      exact hcontra ((hchar c hc).mp hpred)
  · unfold pruneByIds
    dsimp only
    rw [List.any_eq_true]
    constructor
    · rintro ⟨c, hc, hpred⟩
      exact ⟨c, hc, (hchar c hc).mp hpred⟩
    · rintro ⟨c, hc, hcond⟩
      exact ⟨c, hc, (hchar c hc).mpr hcond⟩
  · intro hnd hm hleaf
    unfold pruneByIds
    dsimp only
    have hpred : ∀ c ∈ items, (removePred (idsToRemove items {cid}) c = true ↔
        c.id = cid) := by
      intro c hc
      rw [hchar c hc]
      constructor
      · rintro (h | h)
        · exact h
        · exact absurd h (hleaf c.id)
      · exact Or.inl
    have hcount : items.countP (removePred (idsToRemove items {cid})) = 1 := by
      rw [show items.countP (removePred (idsToRemove items {cid}))
          = items.countP (fun c => c.id = cid) from ?_]
      · exact countP_id_eq_one items cid hnd hm
      · apply List.countP_congr
        intro c hc
        rw [hpred c hc]
        simp
    have hsplit := length_filter_not_add_countP
      (removePred (idsToRemove items {cid})) items
    omega

/-- A TEXT child whose relIn.id names the section SEC-1. -/
def childT : Comp :=
  { id := "T1", kind := "TEXT",
    relIn := some ⟨some "SEC-1", some 1, some 2, none, none⟩, relTo := none,
    left := some 10, top := some 20, right := none, bottom := none,
    width := some 30, height := some 40, orderIndex := some 0,
    content := none }

/-- Counterexample to C5.  The remove tool (tools.remove, also
tools_v2._execute_remove) deletes only the record with the matching id:
removing SEC-1 from a document where T1's relIn.id transitively resolves
to SEC-1 leaves T1 in storage, although T1 is a transitive relIn
descendant of SEC-1 — so the claim that the remove operation deletes every
such component is false for the remove tool. -/
theorem remove_leaves_descendants_counterexample :
    ((removeTool [parentW, childT] "SEC-1").1).map (fun c => c.id) = ["T1"] ∧
    (removeTool [parentW, childT] "SEC-1").2 = true ∧
    Relation.TransGen (childEdge [parentW, childT]) "SEC-1" "T1" := by
  refine ⟨by decide, by decide, ?_⟩
  exact Relation.TransGen.single ⟨childT, by simp, rfl, rfl⟩

/-- No component of a single-section page references a parent, so the
section has no relIn descendants. -/
theorem parentW_no_descendants :
    ∀ y, ¬ Relation.TransGen (childEdge [parentW]) "SEC-1" y := by
  intro y h
  induction h with
  | single hedge =>
      obtain ⟨c, hc, _, hrel⟩ := hedge
      simp only [List.mem_singleton] at hc
      subst hc
      simp [relParent, parentW] at hrel
  | tail _ hedge _ =>
      obtain ⟨c, hc, _, hrel⟩ := hedge
      simp only [List.mem_singleton] at hc
      subst hc
      simp [relParent, parentW] at hrel

/-- Witness for the amended C5: pruning a leaf section removes exactly one
record, and the returned flag reflects whether anything was removed. -/
theorem pruneByIds_removes_descendants_witness :
    (pruneByIds [parentW] {"SEC-1"}).1.length + 1 = [parentW].length ∧
    ((pruneByIds [parentW] {"SEC-1"}).2 = true ↔
      ∃ c ∈ [parentW], c.id = "SEC-1" ∨
        Relation.TransGen (childEdge [parentW]) "SEC-1" c.id) := by
  constructor
  · exact (pruneByIds_removes_descendants [parentW] "SEC-1").2.2
      (by decide) (by decide) parentW_no_descendants
  · exact (pruneByIds_removes_descendants [parentW] "SEC-1").2.1

/-! ## builder.py: the style-field normalizer (C9, C10)

The normalizer operates on arbitrary JSON-ish component dicts, so this
part of the embedding uses a little JSON universe: mutually inductive
values, arrays and objects (an object is a key-ordered association list,
as a Python dict is).  Python's `str.capitalize` and `str.lower` are
modelled for ASCII; the case mapping never produces a separator character,
which is the only property the claims depend on. -/

/-- ASCII uppercase of one character (a..z to A..Z, all else unchanged). -/
def asciiUpper (c : Char) : Char :=
  if 97 ≤ c.toNat ∧ c.toNat ≤ 122 then Char.ofNat (c.toNat - 32) else c

/-- ASCII lowercase of one character (A..Z to a..z, all else unchanged). -/
def asciiLower (c : Char) : Char :=
  if 65 ≤ c.toNat ∧ c.toNat ≤ 90 then Char.ofNat (c.toNat + 32) else c

/-- Python `str.capitalize()`: first character uppercased, the rest
lowercased. -/
def pyCapitalize : List Char → List Char
  | [] => []
  | c :: rest => asciiUpper c :: rest.map asciiLower

/-- The `key.replace("_", "-")` step of _camelize_css_key. -/
def sanitizeChar (c : Char) : Char := if c = '_' then '-' else c

/-- Python `str.split("-")` on a character list. -/
def splitDash : List Char → List (List Char)
  | [] => [[]]
  | c :: rest =>
      match splitDash rest with
      | [] => [[c]]
      | p :: ps => if c = '-' then [] :: p :: ps else (c :: p) :: ps

/-- builder._camelize_css_key: replace underscores by dashes, split on
dashes; a single part returns the key unchanged, otherwise the first part
is concatenated with the capitalization of every later non-empty part. -/
def camelizeKey (key : String) : String :=
  let sanitized := key.data.map sanitizeChar
  match splitDash sanitized with
  | [] => key
  | p :: ps =>
      if ps = [] then key
      else ⟨p ++ ((ps.filter (fun q => ¬ q = [])).map pyCapitalize).flatten⟩

mutual

/-- A JSON value (the payloads style fields can hold). -/
inductive JVal where
  | null : JVal
  | bool (b : Bool) : JVal
  | num (n : Int) : JVal
  | str (s : String) : JVal
  | arr (xs : JArr) : JVal
  | obj (fs : JObj) : JVal

/-- A JSON array. -/
inductive JArr where
  | nil : JArr
  | cons (v : JVal) (t : JArr) : JArr

/-- A JSON object: an ordered association list of key/value pairs. -/
inductive JObj where
  | nil : JObj
  | cons (k : String) (v : JVal) (t : JObj) : JObj

end

mutual

/-- builder._camelize_style_value on a value: camel-case the keys of every
nested mapping, recurse into arrays, leave other values unchanged. -/
def camelizeVal : JVal → JVal
  | .obj fs => .obj (camelizeObj fs)
  | .arr xs => .arr (camelizeArr xs)
  | v => v

/-- builder._camelize_style_value on an array. -/
def camelizeArr : JArr → JArr
  | .nil => .nil
  | .cons v t => .cons (camelizeVal v) (camelizeArr t)

/-- builder._camelize_style_value on a mapping. -/
def camelizeObj : JObj → JObj
  | .nil => .nil
  | .cons k v t => .cons (camelizeKey k) (camelizeVal v) (camelizeObj t)

end

/-- builder.STYLE_FIELDS. -/
def STYLE_FIELDS : List String :=
  ["style", "styles", "hover", "onHover", "press", "imageStyle",
   "captionBoxStyle", "captionTitleTextStyle", "captionDescriptionTextStyle",
   "captionStyle", "textStyleMeta"]

/-- First binding of a key in an object (Python dict read). -/
def lookupJ : JObj → String → Option JVal
  | .nil, _ => none
  | .cons k v t, q => if k = q then some v else lookupJ t q

/-- Overwrite the value at a key (Python dict write; rewrites every binding
of the key, which on a duplicate-free object is the single binding). -/
def setJ : JObj → String → JVal → JObj
  | .nil, _, _ => .nil
  | .cons k v t, q, w => if k = q then .cons k w (setJ t q w) else .cons k v (setJ t q w)

/-- The `styles`-as-list special case: camel-case only the mapping
entries, leave other entries untouched. -/
def mapStylesArr : JArr → JArr
  | .nil => .nil
  | .cons v t =>
      match v with
      | .obj fs => .cons (camelizeVal (.obj fs)) (mapStylesArr t)
      | w => .cons w (mapStylesArr t)

/-- The transformation normalize_style_fields applies to the value of one
style field: the `styles` list maps only its dict entries, any dict value
is camel-cased, and everything else is left as is. -/
def transformStyleValue (field : String) (v : JVal) : JVal :=
  if field = "styles" then
    match v with
    | .arr xs => .arr (mapStylesArr xs)
    | .obj fs => camelizeVal (.obj fs)
    | w => w
  else
    match v with
    | .obj fs => camelizeVal (.obj fs)
    | w => w

/-- One loop iteration of builder.normalize_style_fields: skip an absent
field, else overwrite it with its transformed value. -/
def applyStyleField (comp : JObj) (field : String) : JObj :=
  match lookupJ comp field with
  | none => comp
  | some v => setJ comp field (transformStyleValue field v)

/-- builder.normalize_style_fields: apply the per-field step for every
style field name. -/
def normalize_style_fields (comp : JObj) : JObj :=
  STYLE_FIELDS.foldl applyStyleField comp

/-- The keys of an object, in order. -/
def keysJ : JObj → List String
  | .nil => []
  | .cons k _ t => k :: keysJ t

theorem toNat_ofNat_valid (n : Nat) (h : n.isValidChar) : (Char.ofNat n).toNat = n := by
  unfold Char.ofNat
  rw [dif_pos h]
  unfold Char.ofNatAux Char.toNat
  rfl

theorem asciiUpper_sep (c : Char) (h1 : ¬ c = '-') (h2 : ¬ c = '_') :
    ¬ asciiUpper c = '-' ∧ ¬ asciiUpper c = '_' := by
  unfold asciiUpper
  split
  · rename_i hr
    have hv : (c.toNat - 32).isValidChar := Or.inl (by omega)
    constructor
    · intro he
      have hn := congrArg Char.toNat he
      rw [toNat_ofNat_valid _ hv] at hn
      have h45 : ('-').toNat = 45 := rfl
      omega
    · intro he
      have hn := congrArg Char.toNat he
      rw [toNat_ofNat_valid _ hv] at hn
      have h95 : ('_').toNat = 95 := rfl
      omega
  · exact ⟨h1, h2⟩

theorem asciiLower_sep (c : Char) (h1 : ¬ c = '-') (h2 : ¬ c = '_') :
    ¬ asciiLower c = '-' ∧ ¬ asciiLower c = '_' := by
  unfold asciiLower
  split
  · rename_i hr
    have hv : (c.toNat + 32).isValidChar := Or.inl (by omega)
    constructor
    · intro he
      have hn := congrArg Char.toNat he
      rw [toNat_ofNat_valid _ hv] at hn
      have h45 : ('-').toNat = 45 := rfl
      omega
    · intro he
      have hn := congrArg Char.toNat he
      rw [toNat_ofNat_valid _ hv] at hn
      have h95 : ('_').toNat = 95 := rfl
      omega
  · exact ⟨h1, h2⟩

theorem pyCapitalize_sep (p : List Char)
    (hp : ∀ x ∈ p, ¬ x = '-' ∧ ¬ x = '_') :
    ∀ x ∈ pyCapitalize p, ¬ x = '-' ∧ ¬ x = '_' := by
  cases p with
  | nil => intro x hx; simp [pyCapitalize] at hx
  | cons c rest =>
      intro x hx
      simp only [pyCapitalize, List.mem_cons, List.mem_map] at hx
      rcases hx with he | ⟨y, hy, hye⟩
      · subst he
        have := hp c (List.mem_cons_self c rest)
        exact asciiUpper_sep c this.1 this.2
      · subst hye
        have := hp y (List.mem_cons_of_mem c hy)
        exact asciiLower_sep y this.1 this.2

theorem splitDash_ne_nil (l : List Char) : ¬ splitDash l = [] := by
  induction l with
  | nil => simp [splitDash]
  | cons c rest ih =>
      unfold splitDash
      cases hs : splitDash rest with
      | nil => simp
      | cons p ps =>
          by_cases hc : c = '-'
          · simp [hc]
          · simp [hc]

theorem mem_splitDash_no_dash (l : List Char) :
    ∀ p ∈ splitDash l, ¬ '-' ∈ p := by
  induction l with
  | nil => intro p hp; simp [splitDash] at hp; subst hp; simp
  | cons c rest ih =>
      intro p hp
      unfold splitDash at hp
      cases hs : splitDash rest with
      | nil => exact absurd hs (splitDash_ne_nil rest)
      | cons q qs =>
          rw [hs] at hp
          dsimp only at hp
          by_cases hc : c = '-'
          · rw [if_pos hc] at hp
            rcases List.mem_cons.mp hp with he | hm
            · subst he; simp
            · exact ih p (by rw [hs]; exact hm)
          · rw [if_neg hc] at hp
            rcases List.mem_cons.mp hp with he | hm
            · subst he
              intro hmem
              rcases List.mem_cons.mp hmem with he2 | hm2
              · exact hc he2.symm
              · exact ih q (by rw [hs]; exact List.mem_cons_self q qs) hm2
            · exact ih p (by rw [hs]; exact List.mem_cons_of_mem q hm)

theorem splitDash_chars (l : List Char) :
    ∀ p ∈ splitDash l, ∀ x ∈ p, x ∈ l := by
  induction l with
  | nil => intro p hp x hx; simp [splitDash] at hp; subst hp; simp at hx
  | cons c rest ih =>
      intro p hp x hx
      unfold splitDash at hp
      cases hs : splitDash rest with
      | nil => exact absurd hs (splitDash_ne_nil rest)
      | cons q qs =>
          rw [hs] at hp
          dsimp only at hp
          by_cases hc : c = '-'
          · rw [if_pos hc] at hp
            rcases List.mem_cons.mp hp with he | hm
            · subst he; simp at hx
            · exact List.mem_cons_of_mem c (ih p (by rw [hs]; exact hm) x hx)
          · rw [if_neg hc] at hp
            rcases List.mem_cons.mp hp with he | hm
            · subst he
              rcases List.mem_cons.mp hx with he2 | hm2
              · subst he2; exact List.mem_cons_self x rest
              · exact List.mem_cons_of_mem c
                  (ih q (by rw [hs]; exact List.mem_cons_self q qs) x hm2)
            · exact List.mem_cons_of_mem c
                (ih p (by rw [hs]; exact List.mem_cons_of_mem q hm) x hx)

theorem splitDash_single_of_no_dash (l : List Char) (h : ¬ '-' ∈ l) :
    splitDash l = [l] := by
  induction l with
  | nil => rfl
  | cons c rest ih =>
      have hc : ¬ c = '-' := fun he => h (by rw [he]; exact List.mem_cons_self _ _)
      have hr : ¬ '-' ∈ rest := fun hm => h (List.mem_cons_of_mem c hm)
      unfold splitDash
      rw [ih hr]
      simp [hc]

theorem length_splitDash_ge_two (l : List Char) (h : '-' ∈ l) :
    2 ≤ (splitDash l).length := by
  induction l with
  | nil => simp at h
  | cons c rest ih =>
      unfold splitDash
      cases hs : splitDash rest with
      | nil => exact absurd hs (splitDash_ne_nil rest)
      | cons q qs =>
          dsimp only
          by_cases hc : c = '-'
          · simp [hc]
          · rw [if_neg hc]
            have hm : '-' ∈ rest := by
              rcases List.mem_cons.mp h with he | hm
              · exact absurd he.symm hc
              · exact hm
            have := ih hm
            rw [hs] at this
            simpa using this

theorem sep_mem_sanitized (k : String) (x : Char) (hx : x ∈ k.data)
    (hsep : x = '-' ∨ x = '_') : '-' ∈ k.data.map sanitizeChar := by
  rcases hsep with h | h
  · subst h
    exact List.mem_map.mpr ⟨'-', hx, rfl⟩
  · subst h
    exact List.mem_map.mpr ⟨'_', hx, rfl⟩

theorem sanitized_no_underscore (k : String) : ¬ '_' ∈ k.data.map sanitizeChar := by
  intro h
  obtain ⟨c, _, hc⟩ := List.mem_map.mp h
  unfold sanitizeChar at hc
  by_cases he : c = '_'
  · rw [if_pos he] at hc; exact absurd hc (by decide)
  · rw [if_neg he] at hc; subst hc; exact he rfl

theorem camelizeKey_no_sep (k : String) :
    ∀ x ∈ (camelizeKey k).data, ¬ x = '-' ∧ ¬ x = '_' := by
  intro x hx
  unfold camelizeKey at hx
  dsimp only at hx
  cases hs : splitDash (k.data.map sanitizeChar) with
  | nil => exact absurd hs (splitDash_ne_nil _)
  | cons p ps =>
      rw [hs] at hx
      dsimp only at hx
      by_cases hps : ps = []
      · rw [if_pos hps] at hx
        have hnd : ¬ '-' ∈ k.data.map sanitizeChar := by
          intro hmem
          have := length_splitDash_ge_two _ hmem
          rw [hs, hps] at this
          simp at this
        constructor
        · intro he
          subst he
          exact hnd (sep_mem_sanitized k '-' hx (Or.inl rfl))
        · intro he
          subst he
          exact hnd (sep_mem_sanitized k '_' hx (Or.inr rfl))
      · rw [if_neg hps] at hx
        show ¬ x = '-' ∧ ¬ x = '_'
        have hx' : x ∈ p ++ ((ps.filter (fun q => ¬ q = [])).map pyCapitalize).flatten := hx
        rcases List.mem_append.mp hx' with hxp | hxf
        · have hnd : ¬ '-' ∈ p :=
            mem_splitDash_no_dash _ p (by rw [hs]; exact List.mem_cons_self p ps)
          have hchar : x ∈ k.data.map sanitizeChar :=
            splitDash_chars _ p (by rw [hs]; exact List.mem_cons_self p ps) x hxp
          constructor
          · intro he; subst he; exact hnd hxp
          · intro he; subst he; exact sanitized_no_underscore k hchar
        · obtain ⟨q', hq', hxq⟩ := List.mem_flatten.mp hxf
          obtain ⟨q, hq, hqe⟩ := List.mem_map.mp hq'
          have hqmem : q ∈ splitDash (k.data.map sanitizeChar) := by
            rw [hs]
            exact List.mem_cons_of_mem p (List.mem_filter.mp hq).1
          have hqsep : ∀ y ∈ q, ¬ y = '-' ∧ ¬ y = '_' := by
            intro y hy
            constructor
            · intro he; subst he
              exact mem_splitDash_no_dash _ q hqmem hy
            · intro he; subst he
              exact sanitized_no_underscore k (splitDash_chars _ q hqmem _ hy)
          subst hqe
          exact pyCapitalize_sep q hqsep x hxq

theorem camelizeKey_of_no_sep (k : String)
    (h : ∀ x ∈ k.data, ¬ x = '-' ∧ ¬ x = '_') : camelizeKey k = k := by
  unfold camelizeKey
  dsimp only
  have hsan : k.data.map sanitizeChar = k.data := by
    rw [show k.data.map sanitizeChar = k.data.map id from ?_, List.map_id]
    apply List.map_congr_left
    intro c hc
    unfold sanitizeChar
    rw [if_neg (h c hc).2]
    rfl
  rw [hsan, splitDash_single_of_no_dash k.data (fun hm => (h '-' hm).1 rfl)]
  simp

/-- builder._camelize_css_key is idempotent: a camelized key contains no
separator, and a separator-free key is returned unchanged. -/
theorem camelizeKey_idem (k : String) :
    camelizeKey (camelizeKey k) = camelizeKey k :=
  camelizeKey_of_no_sep (camelizeKey k) (camelizeKey_no_sep k)

mutual

theorem camelizeVal_idem : ∀ v : JVal, camelizeVal (camelizeVal v) = camelizeVal v
  | .null => rfl
  | .bool _ => rfl
  | .num _ => rfl
  | .str _ => rfl
  | .arr xs => by simp only [camelizeVal, camelizeArr_idem xs]
  | .obj fs => by simp only [camelizeVal, camelizeObj_idem fs]

theorem camelizeArr_idem : ∀ xs : JArr, camelizeArr (camelizeArr xs) = camelizeArr xs
  | .nil => rfl
  | .cons v t => by simp only [camelizeArr, camelizeVal_idem v, camelizeArr_idem t]

theorem camelizeObj_idem : ∀ fs : JObj, camelizeObj (camelizeObj fs) = camelizeObj fs
  | .nil => rfl
  | .cons k v t => by
      simp only [camelizeObj, camelizeKey_idem k, camelizeVal_idem v, camelizeObj_idem t]

end

theorem mapStylesArr_idem : ∀ xs : JArr, mapStylesArr (mapStylesArr xs) = mapStylesArr xs
  | .nil => rfl
  | .cons v t => by
      cases v with
      | obj fs =>
          simp only [mapStylesArr, camelizeVal, camelizeObj_idem fs, mapStylesArr_idem t]
      | null => simp only [mapStylesArr, mapStylesArr_idem t]
      | bool b => simp only [mapStylesArr, mapStylesArr_idem t]
      | num n => simp only [mapStylesArr, mapStylesArr_idem t]
      | str s => simp only [mapStylesArr, mapStylesArr_idem t]
      | arr ys => simp only [mapStylesArr, mapStylesArr_idem t]

theorem transformStyleValue_obj (f : String) (fs : JObj) :
    transformStyleValue f (.obj fs) = .obj (camelizeObj fs) := by
  unfold transformStyleValue
  split
  · simp only [camelizeVal]
  · simp only [camelizeVal]

theorem transformStyleValue_styles_arr (xs : JArr) :
    transformStyleValue "styles" (.arr xs) = .arr (mapStylesArr xs) := by
  unfold transformStyleValue
  rw [if_pos (show "styles" = "styles" from rfl)]

theorem transformStyleValue_arr_ne (f : String) (xs : JArr) (hf : ¬ f = "styles") :
    transformStyleValue f (.arr xs) = .arr xs := by
  unfold transformStyleValue
  rw [if_neg hf]

theorem transformStyleValue_other (f : String) (v : JVal)
    (ho : ∀ fs : JObj, ¬ v = JVal.obj fs) (ha : ∀ xs : JArr, ¬ v = JVal.arr xs) :
    transformStyleValue f v = v := by
  unfold transformStyleValue
  cases v with
  | obj fs => exact absurd rfl (ho fs)
  | arr xs => exact absurd rfl (ha xs)
  | null => split <;> rfl
  | bool b => split <;> rfl
  | num n => split <;> rfl
  | str s => split <;> rfl

theorem transformStyleValue_idem (f : String) (v : JVal) :
    transformStyleValue f (transformStyleValue f v) = transformStyleValue f v := by
  cases v with
  | obj fs =>
      rw [transformStyleValue_obj, transformStyleValue_obj, camelizeObj_idem]
  | arr xs =>
      by_cases hf : f = "styles"
      · subst hf
        rw [transformStyleValue_styles_arr, transformStyleValue_styles_arr, mapStylesArr_idem]
      · rw [transformStyleValue_arr_ne f xs hf, transformStyleValue_arr_ne f xs hf]
  | null =>
      have h := transformStyleValue_other f .null (fun fs he => JVal.noConfusion he)
        (fun xs he => JVal.noConfusion he)
      rw [h, h]
  | bool b =>
      have h := transformStyleValue_other f (.bool b) (fun fs he => JVal.noConfusion he)
        (fun xs he => JVal.noConfusion he)
      rw [h, h]
  | num n =>
      have h := transformStyleValue_other f (.num n) (fun fs he => JVal.noConfusion he)
        (fun xs he => JVal.noConfusion he)
      rw [h, h]
  | str s =>
      have h := transformStyleValue_other f (.str s) (fun fs he => JVal.noConfusion he)
        (fun xs he => JVal.noConfusion he)
      rw [h, h]

/-- Field-wise description of the normalizer loop: transform the value of
every binding whose key is a requested field, leave every other binding
alone. -/
def pointwiseOn (fields : List String) : JObj → JObj
  | .nil => .nil
  | .cons k v t =>
      .cons k (if k ∈ fields then transformStyleValue k v else v) (pointwiseOn fields t)

theorem lookupJ_eq_none_iff : ∀ (o : JObj) (q : String),
    lookupJ o q = none ↔ ¬ q ∈ keysJ o
  | .nil, q => by simp [lookupJ, keysJ]
  | .cons k v t, q => by
      have ih := lookupJ_eq_none_iff t q
      by_cases hk : k = q
      · subst hk; simp [lookupJ, keysJ]
      · simp only [lookupJ, keysJ, List.mem_cons, if_neg hk, ih]
        constructor
        · intro h hc
          rcases hc with he | hm
          · exact hk he.symm
          · exact h hm
        · intro h hm
          exact h (Or.inr hm)

theorem setJ_of_not_mem : ∀ (o : JObj) (q : String) (w : JVal),
    ¬ q ∈ keysJ o → setJ o q w = o
  | .nil, _, _, _ => rfl
  | .cons k v t, q, w, h => by
      have hk : ¬ k = q := fun he => h (by rw [← he]; exact List.mem_cons_self k (keysJ t))
      simp only [setJ]
      rw [if_neg hk, setJ_of_not_mem t q w (fun hm => h (List.mem_cons_of_mem k hm))]

theorem keysJ_setJ : ∀ (o : JObj) (q : String) (w : JVal),
    keysJ (setJ o q w) = keysJ o
  | .nil, _, _ => rfl
  | .cons k v t, q, w => by
      have ih := keysJ_setJ t q w
      simp only [setJ]
      by_cases hk : k = q
      · rw [if_pos hk]; simp only [keysJ, ih]
      · rw [if_neg hk]; simp only [keysJ, ih]

theorem keysJ_applyStyleField (o : JObj) (f : String) :
    keysJ (applyStyleField o f) = keysJ o := by
  unfold applyStyleField
  cases h : lookupJ o f with
  | none => rfl
  | some v => exact keysJ_setJ o f _

theorem pointwiseOn_of_disjoint : ∀ (fields : List String) (o : JObj),
    (∀ x ∈ keysJ o, ¬ x ∈ fields) → pointwiseOn fields o = o
  | _, .nil, _ => rfl
  | fields, .cons k v t, h => by
      simp only [pointwiseOn]
      rw [if_neg (h k (show k ∈ keysJ (JObj.cons k v t) from List.mem_cons_self k (keysJ t)))]
      rw [pointwiseOn_of_disjoint fields t
            (fun x hx => h x (show x ∈ keysJ (JObj.cons k v t) from List.mem_cons_of_mem k hx))]

theorem pointwiseOn_nil_fields (o : JObj) : pointwiseOn [] o = o :=
  pointwiseOn_of_disjoint [] o (fun x _ hm => List.not_mem_nil x hm)

theorem applyStyleField_eq_pointwise : ∀ (o : JObj) (f : String),
    (keysJ o).Nodup → applyStyleField o f = pointwiseOn [f] o
  | .nil, _, _ => rfl
  | .cons k v t, f, hnd => by
      have hnd2 := List.nodup_cons.mp (show (k :: keysJ t).Nodup from hnd)
      have hknot : ¬ k ∈ keysJ t := hnd2.1
      have hnd' : (keysJ t).Nodup := hnd2.2
      by_cases hk : k = f
      · subst hk
        have hl : lookupJ (JObj.cons k v t) k = some v := by simp [lookupJ]
        unfold applyStyleField
        rw [hl]
        show setJ (JObj.cons k v t) k (transformStyleValue k v) = pointwiseOn [k] (JObj.cons k v t)
        simp only [setJ, pointwiseOn, if_true,
          show (k ∈ [k]) = True from eq_true (List.mem_cons_self k [])]
        rw [setJ_of_not_mem t k _ hknot,
            pointwiseOn_of_disjoint [k] t
              (fun x hx hm => hknot (List.mem_singleton.mp hm ▸ hx))]
      · have hl : lookupJ (JObj.cons k v t) f = lookupJ t f := by simp [lookupJ, hk]
        unfold applyStyleField
        rw [hl]
        cases hlt : lookupJ t f with
        | none =>
            show JObj.cons k v t = pointwiseOn [f] (JObj.cons k v t)
            simp only [pointwiseOn]
            rw [if_neg (show ¬ k ∈ [f] by simp [hk]),
                pointwiseOn_of_disjoint [f] t
                  (fun x hx hm =>
                    ((lookupJ_eq_none_iff t f).mp hlt) (List.mem_singleton.mp hm ▸ hx))]
        | some w =>
            show setJ (JObj.cons k v t) f (transformStyleValue f w) =
                pointwiseOn [f] (JObj.cons k v t)
            simp only [setJ, pointwiseOn]
            rw [if_neg hk, if_neg (show ¬ k ∈ [f] by simp [hk])]
            have hih := applyStyleField_eq_pointwise t f hnd'
            unfold applyStyleField at hih
            rw [hlt] at hih
            rw [show setJ t f (transformStyleValue f w) = pointwiseOn [f] t from hih]

theorem pointwiseOn_cons_comp : ∀ (f : String) (fs : List String), ¬ f ∈ fs →
    ∀ o : JObj, pointwiseOn fs (pointwiseOn [f] o) = pointwiseOn (f :: fs) o
  | _, _, _, .nil => rfl
  | f, fs, hf, .cons k v t => by
      simp only [pointwiseOn, pointwiseOn_cons_comp f fs hf t]
      congr 1
      by_cases hk : k = f
      · subst hk
        rw [if_pos (show k ∈ [k] from List.mem_cons_self k []),
            if_pos (show k ∈ k :: fs from List.mem_cons_self k fs),
            if_neg hf]
      · rw [if_neg (show ¬ k ∈ [f] by simp [hk])]
        by_cases hkfs : k ∈ fs
        · rw [if_pos hkfs, if_pos (List.mem_cons_of_mem f hkfs)]
        · rw [if_neg hkfs, if_neg (show ¬ k ∈ f :: fs by simp [hk, hkfs])]

theorem pointwiseOn_comp_self : ∀ (fs : List String) (o : JObj),
    pointwiseOn fs (pointwiseOn fs o) = pointwiseOn fs o
  | _, .nil => rfl
  | fs, .cons k v t => by
      simp only [pointwiseOn, pointwiseOn_comp_self fs t]
      congr 1
      by_cases hk : k ∈ fs
      · simp only [if_pos hk]
        exact transformStyleValue_idem k v
      · simp only [if_neg hk]

theorem keysJ_foldl_applyStyleField (fs : List String) :
    ∀ o : JObj, keysJ (fs.foldl applyStyleField o) = keysJ o := by
  induction fs with
  | nil => intro o; rfl
  | cons f fs ih =>
      intro o
      simp only [List.foldl_cons]
      rw [ih, keysJ_applyStyleField]

theorem foldl_applyStyleField_eq (fields : List String) :
    ∀ o : JObj, (keysJ o).Nodup → fields.Nodup →
      fields.foldl applyStyleField o = pointwiseOn fields o := by
  induction fields with
  | nil => intro o _ _; exact (pointwiseOn_nil_fields o).symm
  | cons f fs ih =>
      intro o hnd hfnd
      have hf : ¬ f ∈ fs := (List.nodup_cons.mp hfnd).1
      have hfs : fs.Nodup := (List.nodup_cons.mp hfnd).2
      simp only [List.foldl_cons]
      rw [ih (applyStyleField o f) (by rw [keysJ_applyStyleField]; exact hnd) hfs,
          applyStyleField_eq_pointwise o f hnd]
      exact pointwiseOn_cons_comp f fs hf o

/-- C9: builder.normalize_style_fields is idempotent: on every component
object whose keys are duplicate-free (every Python dict is), applying the
normalizer twice produces the same object as applying it once. -/
theorem normalize_style_fields_idem (comp : JObj) (hnd : (keysJ comp).Nodup) :
    normalize_style_fields (normalize_style_fields comp) = normalize_style_fields comp := by
  have hsf : STYLE_FIELDS.Nodup := by decide
  unfold normalize_style_fields
  have hk : (keysJ (STYLE_FIELDS.foldl applyStyleField comp)).Nodup := by
    rw [keysJ_foldl_applyStyleField]
    exact hnd
  rw [foldl_applyStyleField_eq STYLE_FIELDS (STYLE_FIELDS.foldl applyStyleField comp) hk hsf,
      foldl_applyStyleField_eq STYLE_FIELDS comp hnd hsf,
      pointwiseOn_comp_self]

/-- A concrete component: a style dict with kebab-case and
underscore-separated keys, plus a non-style field. -/
def styleSample : JObj :=
  .cons "style"
    (.obj (.cons "font-size" (.num 16) (.cons "background_color" (.str "red") .nil)))
    (.cons "content" (.str "hello") .nil)

theorem normalize_style_fields_idem_witness :
    (keysJ styleSample).Nodup ∧
      normalize_style_fields (normalize_style_fields styleSample) =
        normalize_style_fields styleSample :=
  ⟨by decide, normalize_style_fields_idem styleSample (by decide)⟩

theorem lookupJ_setJ_ne : ∀ (o : JObj) (f q : String) (w : JVal), ¬ q = f →
    lookupJ (setJ o f w) q = lookupJ o q
  | .nil, _, _, _, _ => rfl
  | .cons k v t, f, q, w, h => by
      have ih := lookupJ_setJ_ne t f q w h
      simp only [setJ]
      by_cases hk : k = f
      · rw [if_pos hk]
        have hkq : ¬ k = q := fun he => h (he ▸ hk)
        simp only [lookupJ, if_neg hkq, ih]
      · rw [if_neg hk]
        simp only [lookupJ, ih]

theorem lookupJ_applyStyleField_ne (o : JObj) (f q : String) (h : ¬ q = f) :
    lookupJ (applyStyleField o f) q = lookupJ o q := by
  unfold applyStyleField
  cases hl : lookupJ o f with
  | none => rfl
  | some v => exact lookupJ_setJ_ne o f q _ h

theorem lookupJ_foldl_notin (fs : List String) :
    ∀ (o : JObj) (q : String), ¬ q ∈ fs →
      lookupJ (fs.foldl applyStyleField o) q = lookupJ o q := by
  induction fs with
  | nil => intro o q _; rfl
  | cons f fs ih =>
      intro o q hq
      simp only [List.foldl_cons]
      rw [ih _ q (fun hm => hq (List.mem_cons_of_mem f hm)),
          lookupJ_applyStyleField_ne o f q
            (fun he => hq (by rw [he]; exact List.mem_cons_self f fs))]

/-- C10: frame property of builder.normalize_style_fields — every key
outside STYLE_FIELDS maps to an unchanged value; _camelize_style_value
passes non-mapping, non-list values (bool, number, string, null) through
unchanged; and a non-mapping entry of a styles list is left untouched by
the list pass. -/
theorem normalize_style_fields_frame :
    (∀ (comp : JObj) (k : String), ¬ k ∈ STYLE_FIELDS →
        lookupJ (normalize_style_fields comp) k = lookupJ comp k) ∧
    (∀ b : Bool, camelizeVal (.bool b) = .bool b) ∧
    (∀ n : Int, camelizeVal (.num n) = .num n) ∧
    (∀ s : String, camelizeVal (.str s) = .str s) ∧
    camelizeVal .null = .null ∧
    (∀ (v : JVal) (t : JArr), (∀ fs : JObj, ¬ v = JVal.obj fs) →
        mapStylesArr (.cons v t) = .cons v (mapStylesArr t)) := by
  refine ⟨?_, ?_, ?_, ?_, ?_, ?_⟩
  · intro comp k hk
    unfold normalize_style_fields
    exact lookupJ_foldl_notin STYLE_FIELDS comp k hk
  · intro b; simp only [camelizeVal]
  · intro n; simp only [camelizeVal]
  · intro s; simp only [camelizeVal]
  · simp only [camelizeVal]
  · intro v t h
    cases v with
    | obj fs => exact absurd rfl (h fs)
    | null => simp only [mapStylesArr]
    | bool b => simp only [mapStylesArr]
    | num n => simp only [mapStylesArr]
    | str s => simp only [mapStylesArr]
    | arr ys => simp only [mapStylesArr]

theorem normalize_style_fields_frame_witness :
    ¬ "content" ∈ STYLE_FIELDS ∧
      lookupJ (normalize_style_fields styleSample) "content" = lookupJ styleSample "content" ∧
      mapStylesArr (.cons (.num 7) .nil) = .cons (.num 7) (mapStylesArr .nil) :=
  ⟨by decide,
   normalize_style_fields_frame.1 styleSample "content" (by decide),
   normalize_style_fields_frame.2.2.2.2.2 (.num 7) .nil (fun fs he => JVal.noConfusion he)⟩

end WSB
